import Mathlib

/-!
Verification development for the `ldap2pg` sync manager
(`src/ldap2pg/manager.py`).

The functions of `manager.py` are embedded shallowly: Python dicts become
association lists with Python's insertion-order semantics, generators become
pairs of (produced prefix, optional error), exceptions become `Except` /
optional error values, and the LDAP / Postgres transports become function
parameters.  Helpers imported from modules that are not part of the sources
(`ldap.py`, `role.py`, `privilege.py`, `utils.py`, `psql.py`) are modelled
from the specification and marked as such in their doc comments.
-/

namespace Ldap2pg

/-! ## Python dict semantics over association lists -/

/-- Lookup in an association list (first matching key wins; for lists built
with `pyDictSet` / `pyDictOfList` keys are unique, matching Python dicts). -/
def pyLookup {α β : Type} [DecidableEq α] : List (α × β) → α → Option β
  | [], _ => none
  | (k, v) :: rest, a => if k = a then some v else pyLookup rest a

/-- Python `d[k] = v`: replace the value at the first occurrence of `k`
keeping its position, or append `(k, v)` at the end. -/
def pyDictSet {α β : Type} [DecidableEq α] : List (α × β) → α → β → List (α × β)
  | [], k, v => [(k, v)]
  | (k', v') :: rest, k, v =>
    if k' = k then (k, v) :: rest else (k', v') :: pyDictSet rest k v

/-- Build a dict from a pair list, later values for the same key winning
(Python dict construction semantics: first position, last value). -/
def pyDictOfList {α β : Type} [DecidableEq α] (l : List (α × β)) : List (α × β) :=
  l.foldl (fun d p => pyDictSet d p.1 p.2) []

/-- Python `str.lower()` over code points. -/
def strLower (s : String) : String := String.mk (s.data.map Char.toLower)

/-- Split on a single-character separator (Python `str.split(c)`). -/
def strSplit (c : Char) (s : String) : List String := (s.data.splitOn c).map String.mk

/-- Python `"%.Ns"` truncation. -/
def strTake (n : Nat) (s : String) : String := String.mk (s.data.take n)

/-- Count of a value in a list of pairs, via `filter`. -/
def cntPair (l : List (String × String)) (k : String × String) : Nat :=
  (l.filter (fun x => x = k)).length


/-! ## Directory fetcher (`SyncManager._query_ldap`) -/

/-- Attribute map of a raw search result: attribute name to values.
Values are modelled as already-decoded strings, so `decode_value` (from the
absent `utils.py`; per the spec it decodes text and its failures are fatal)
is the identity here and cannot fail. -/
abbrev RawAttrs := List (String × List String)

/-- One raw result of `ldapconn.search_s`: `(dn, attributes)`. -/
abbrev RawEntry := String × RawAttrs

/-- A normalized entry returned by `_query_ldap`. -/
abbrev Entry := String × RawAttrs

/-- The LDAP transport: `search_s(base, scope, filter, attributes)`,
failing with an `LDAPError` message on transport errors. -/
structure LdapConn where
  search_s : String → Nat → String → List String → Except String (List RawEntry)

/-- Log events emitted by `_query_ldap`. -/
inductive LogEvent
  | gotEntries (n : Nat)
  | discardRef
deriving DecidableEq, Repr

/-- Modelled from the spec: `lower_attributes` from the absent `ldap.py`
lower-cases attribute names (spec §2: the fetcher "lower-cases attribute
names").  Rebuilding the dict follows Python dict-comprehension semantics. -/
def lower_attributes (entry : Entry) : Entry :=
  (entry.1, pyDictOfList (entry.2.map (fun p => (strLower p.1, p.2))))

/-- The result-processing loop of `_query_ldap`: referral results (zero-length
DN) are discarded with a debug log, other results get a `dn` attribute set to
their own DN, are decoded, and have their attribute names lowercased. -/
def buildEntries : List RawEntry → List LogEvent × List Entry
  | [] => ([], [])
  | (dn, attrs) :: rest =>
    let r := buildEntries rest
    if dn = "" then (LogEvent.discardRef :: r.1, r.2)
    else (r.1, lower_attributes (dn, pyDictSet attrs "dn" [dn]) :: r.2)

/-- `SyncManager._query_ldap`: one scoped search; transport errors become a
`UserError`; the raw result count is logged, then results are normalized by
`buildEntries`. -/
def _query_ldap (conn : LdapConn) (base : String) (filter : String)
    (attributes : List String) (scope : Nat) :
    Except String (List LogEvent × List Entry) :=
  match conn.search_s base scope filter attributes with
  | .error e => .error ("Failed to query LDAP: " ++ e ++ ".")
  | .ok raw =>
    let r := buildEntries raw
    .ok (LogEvent.gotEntries raw.length :: r.1, r.2)

/-! ## Join resolver (`SyncManager.query_ldap`) -/

/-- Sub-attribute mapping attached to a joined value. -/
abbrev SubAttrs := List (String × List String)

/-- One attribute of an entry after join resolution: each value now carries a
sub-attribute mapping. -/
abbrev JAttrs := List (String × List (String × SubAttrs))

/-- An entry after join resolution. -/
abbrev JEntry := String × JAttrs

instance : DecidableEq (List (String × SubAttrs)) := inferInstance

instance : DecidableEq JAttrs := inferInstance

instance : DecidableEq (List JEntry) := inferInstance

/-- A join specification: nested fetch parameters (its `base` is replaced by
the joined value at fetch time). -/
structure Join where
  filter : String
  attributes : List String
  scope : Nat
deriving DecidableEq, Repr

/-- Python `dict.update`: keys already present are overwritten in place, new
keys are appended in the update's order. -/
def dictUpdate (base upd : SubAttrs) : SubAttrs :=
  base.map (fun p =>
    match pyLookup upd p.1 with
    | some w => (p.1, w)
    | none => p) ++
  upd.filter (fun p => (pyLookup base p.1).isNone)

/-- State threaded through the join-resolution loops: the
`(attribute, value)` cache, the trace of nested fetches issued, and the
values dropped with a warning. -/
structure JoinSt where
  cache : List ((String × String) × SubAttrs)
  fetches : List (String × String)
  warns : List String
deriving DecidableEq, Repr

/-- Cache lookup with Python truthiness: an empty cached dict does not count
as a hit (`if sub_attrs:`). -/
def cacheHit (cache : List ((String × String) × SubAttrs)) (k : String × String) :
    Option SubAttrs :=
  match pyLookup cache k with
  | some sa => if sa.isEmpty then none else some sa
  | none => none

/-- Body of the innermost loop of `query_ldap` for one value of one
attribute: returns the updated state and the `(value, sub_attrs)` pair that
is appended to `values_with_attrs`, or `none` when the value is dropped
(nested fetch returned nothing or failed). -/
def processValue (conn : LdapConn) (joins : List (String × Join)) (attr : String)
    (st : JoinSt) (value : String) : JoinSt × Option (String × SubAttrs) :=
  match pyLookup joins attr with
  | none => (st, some (value, []))
  | some join =>
    match cacheHit st.cache (attr, value) with
    | some sa => (st, some (value, sa))
    | none =>
      let sub0 : SubAttrs := [("dn", [value])]
      if join.attributes.isEmpty then
        ({ st with cache := pyDictSet st.cache (attr, value) sub0 }, some (value, sub0))
      else
        let st1 := { st with fetches := st.fetches ++ [(attr, value)] }
        match _query_ldap conn value join.filter join.attributes join.scope with
        | .ok (_, []) => (st1, none)
        | .ok (_, e :: _) =>
          let sa := dictUpdate sub0 e.2
          ({ st1 with cache := pyDictSet st1.cache (attr, value) sa }, some (value, sa))
        | .error msg =>
          ({ st1 with warns := st1.warns ++ ["Ignoring " ++ value ++ ": " ++ msg] }, none)

/-- The `for value in values` loop of `query_ldap`. -/
def processValues (conn : LdapConn) (joins : List (String × Join)) (attr : String)
    (st : JoinSt) : List String → JoinSt × List (String × SubAttrs)
  | [] => (st, [])
  | v :: vs =>
    let r := processValue conn joins attr st v
    let rest := processValues conn joins attr r.1 vs
    match r.2 with
    | none => rest
    | some p => (rest.1, p :: rest.2)

/-- The `for attr, values in list(entry[1].items())` loop of `query_ldap`. -/
def processAttrs (conn : LdapConn) (joins : List (String × Join))
    (st : JoinSt) : RawAttrs → JoinSt × JAttrs
  | [] => (st, [])
  | (attr, values) :: rest =>
    let r := processValues conn joins attr st values
    let r' := processAttrs conn joins r.1 rest
    (r'.1, (attr, r.2) :: r'.2)

/-- The `for entry in entries` loop of `query_ldap`. -/
def processEntries (conn : LdapConn) (joins : List (String × Join))
    (st : JoinSt) : List Entry → JoinSt × List JEntry
  | [] => (st, [])
  | (dn, attrs) :: rest =>
    let r := processAttrs conn joins st attrs
    let r' := processEntries conn joins r.1 rest
    (r'.1, (dn, r.2) :: r'.2)

/-- Output of `query_ldap`: resolved entries plus the observable side
effects (nested fetches issued and warnings logged). -/
structure QOut where
  entries : List JEntry
  fetches : List (String × String)
  warns : List String
deriving DecidableEq, Repr

instance : DecidableEq (List Entry) := inferInstance

instance : DecidableEq (List LogEvent × List Entry) := inferInstance

instance {ε α : Type} [DecidableEq ε] [DecidableEq α] : DecidableEq (Except ε α) :=
  fun x y =>
    match x, y with
    | .error a, .error b =>
      if h : a = b then .isTrue (by rw [h]) else .isFalse (fun hh => h (by injection hh))
    | .ok a, .ok b =>
      if h : a = b then .isTrue (by rw [h]) else .isFalse (fun hh => h (by injection hh))
    | .error _, .ok _ => .isFalse (fun hh => Except.noConfusion hh)
    | .ok _, .error _ => .isFalse (fun hh => Except.noConfusion hh)

instance : DecidableEq (Except String (List LogEvent × List Entry)) := inferInstance

instance : DecidableEq (Except String QOut) := inferInstance

/-- `SyncManager.query_ldap`: fetch entries, then resolve joins with a
`(attribute, value)` cache scoped to this call. -/
def query_ldap (conn : LdapConn) (base : String) (filter : String)
    (attributes : List String) (joins : List (String × Join)) (scope : Nat) :
    Except String QOut :=
  match _query_ldap conn base filter attributes scope with
  | .error e => .error e
  | .ok (_, entries) =>
    let r := processEntries conn joins ⟨[], [], []⟩ entries
    .ok ⟨r.2, r.1.fetches, r.1.warns⟩

/-- The sub-attribute mapping the join resolver caches for a pair
`(attribute, value)`, determined by the join table and the (pure) transport:
`{dn: [value]}` when the join fetches no attributes, the first fetched
entry's attributes over `{dn: [value]}` when the nested fetch returns
entries, and nothing when it returns nothing or fails. -/
def cacheVal (conn : LdapConn) (joins : List (String × Join)) (a v : String) :
    Option SubAttrs :=
  match pyLookup joins a with
  | none => none
  | some j =>
    if j.attributes.isEmpty then some [("dn", [v])]
    else
      match _query_ldap conn v j.filter j.attributes j.scope with
      | .ok (_, e :: _) => some (dictUpdate [("dn", [v])] e.2)
      | _ => none

/-- A joined pair whose resolution succeeds: either the join fetches no
attributes, or its nested fetch returns at least one entry. -/
def goodPair (conn : LdapConn) (joins : List (String × Join)) (a v : String) : Prop :=
  ∃ j, pyLookup joins a = some j ∧
    (j.attributes = [] ∨
      ∃ l e es, _query_ldap conn v j.filter j.attributes j.scope = .ok (l, e :: es))

/-- Transport well-formedness: every result's attribute dict has unique keys
(Python dicts always do) and reserves no name that lowercases to `dn` other
than `dn` itself. -/
def CleanConn (conn : LdapConn) : Prop :=
  ∀ base scope filter attrs raw, conn.search_s base scope filter attrs = .ok raw →
    ∀ p ∈ raw,
      (p.2.map Prod.fst).Nodup ∧ ∀ q ∈ p.2, strLower q.1 = "dn" → q.1 = "dn"

/-- Invariant of the join-resolution state: (i) every cache entry is the
pair's `cacheVal`; (ii) a nested fetch is only ever issued for a joined
attribute with a nonempty attribute list; (iii) a resolvable pair is fetched
at most once, and once fetched it is a cache hit. -/
def JInv (conn : LdapConn) (joins : List (String × Join)) (st : JoinSt) : Prop :=
  (∀ a v sa, pyLookup st.cache (a, v) = some sa → cacheVal conn joins a v = some sa) ∧
  (∀ a v, 1 ≤ cntPair st.fetches (a, v) →
    ∃ j, pyLookup joins a = some j ∧ j.attributes ≠ []) ∧
  (∀ a v, goodPair conn joins a v →
    cntPair st.fetches (a, v) ≤ 1 ∧
      (1 ≤ cntPair st.fetches (a, v) → (cacheHit st.cache (a, v)).isSome))

/-! ## Attribute expansion (modelled from the spec)

`expand_attributes` and `RDNError` come from the absent `ldap.py`.  Modelled
from the spec: a templated field referencing an attribute expands to one
value per attribute value, static text passes through unchanged, values
produced lazily; referencing an RDN of a DN-valued attribute raises an
`RDNError` ("unexpected DN") when the expected RDN type is absent, other
failures are `ValueError`s; on a synthetic null entry templates must be
static. -/

/-- Errors raised during template expansion. -/
inductive ExpErr
  | rdn (dn : String)
  | val (msg : String)
  | stopIter
deriving DecidableEq, Repr

/-- A template field: static text, an attribute reference (`{attr}`), or a
reference to an RDN of a DN-valued attribute (`{attr.rdn}`). -/
inductive Tmpl
  | static (s : String)
  | attr (a : String)
  | attrRdn (a : String) (r : String)
deriving DecidableEq, Repr

/-- Result of consuming a (lazy) generator: values produced before the
optional error interrupted it. -/
structure PartialRes (α : Type) where
  produced : List α
  error : Option ExpErr
deriving DecidableEq, Repr

/-- Extract the value of the first RDN of a DN string when its type matches,
`RDNError` when it does not, `ValueError` when the DN is unparseable. -/
def rdnOf (v : String) (r : String) : Except ExpErr String :=
  match strSplit ',' v with
  | [] => .error (.val ("Unparseable DN: " ++ v))
  | c :: _ =>
    match strSplit '=' c with
    | [t, w] => if t = r then .ok w else .error (.rdn v)
    | _ => .error (.val ("Unparseable DN: " ++ v))

/-- Expand an `{attr.rdn}` reference over the values of a joined attribute:
use the joined sub-attribute when fetched, else parse the value as a DN. -/
def expandPairs (r : String) : List (String × SubAttrs) → PartialRes String
  | [] => ⟨[], none⟩
  | (v, sa) :: rest =>
    match pyLookup sa r with
    | some (w :: _) =>
      let t := expandPairs r rest
      ⟨w :: t.produced, t.error⟩
    | _ =>
      match rdnOf v r with
      | .ok w =>
        let t := expandPairs r rest
        ⟨w :: t.produced, t.error⟩
      | .error e => ⟨[], some e⟩

/-- Expand one template against an optional entry. -/
def expandOne : Option JEntry → Tmpl → PartialRes String
  | _, .static s => ⟨[s], none⟩
  | none, .attr a => ⟨[], some (.val ("cannot expand " ++ a ++ " without LDAP entry"))⟩
  | none, .attrRdn a _ => ⟨[], some (.val ("cannot expand " ++ a ++ " without LDAP entry"))⟩
  | some e, .attr a =>
    match pyLookup e.2 a with
    | none => ⟨[], some (.val ("unknown attribute " ++ a))⟩
    | some pairs => ⟨pairs.map Prod.fst, none⟩
  | some e, .attrRdn a r =>
    match pyLookup e.2 a with
    | none => ⟨[], some (.val ("unknown attribute " ++ a))⟩
    | some pairs => expandPairs r pairs

/-- `expand_attributes(entry, strings)`: lazily concatenate the expansions of
each template, stopping at the first error. -/
def expand_attributes (e : Option JEntry) : List Tmpl → PartialRes String
  | [] => ⟨[], none⟩
  | t :: ts =>
    let r := expandOne e t
    match r.error with
    | some err => ⟨r.produced, some err⟩
    | none =>
      let rest := expand_attributes e ts
      ⟨r.produced ++ rest.produced, rest.error⟩

/-! ## Role declarations (modelled from the spec) -/

/-- An option value: boolean or string (spec §3: `mapping<string,bool|string>`). -/
inductive OptVal
  | b (v : Bool)
  | s (v : String)
deriving DecidableEq, Repr

/-- Modelled from the spec: `Role` from the absent `role.py`
(`{name, members, parents, options, comment}`). -/
structure Role where
  name : String
  members : List String
  parents : List String
  options : List (String × OptVal)
  comment : Option String
deriving DecidableEq, Repr

/-- Python dict equality: same keys, same values, order-insensitive. -/
def optionsEq (a b : List (String × OptVal)) : Bool :=
  a.all (fun p => pyLookup b p.1 = some p.2) && b.all (fun p => pyLookup a p.1 = some p.2)

/-- Union of two lists seen as sets, keeping first-occurrence order. -/
def listUnion (a b : List String) : List String :=
  a ++ b.filter (fun x => ¬ a.contains x)

/-- Modelled from the spec: the payload of `Role.merge` from the absent
`role.py`.  Member and parent sets union; the comment is inherited from
either side if only one defines it.  `self` is the newly produced
declaration, `other` the one already aggregated
(`role.merge(ldaproles[role])`). -/
def mergedRole (self other : Role) : Role :=
  { self with
    members := listUnion self.members other.members,
    parents := listUnion self.parents other.parents,
    comment := match self.comment with
               | some c => some c
               | none => other.comment }

/-- The merge itself: compatible options union the declarations, otherwise a
`ValueError`. -/
def Role.merge (self other : Role) : Except String Role :=
  if optionsEq self.options other.options then .ok (mergedRole self other)
  else .error "incompatible options"

/-! ## Role rule engine (`process_ldap_entry`, `apply_role_rules`) -/

/-- A role rule: the keyword arguments of `process_ldap_entry` plus the
`on_unexpected_dn` policy read by `apply_role_rules`. -/
structure RoleRule where
  names : List Tmpl
  members : List Tmpl := []
  parents : List Tmpl := []
  comment : Option Tmpl := none
  options : List (String × OptVal) := []
  on_unexpected_dn : Option String := none
deriving DecidableEq, Repr

/-- `SyncManager.process_ldap_entry` as a generator: members, parents and the
comment are expanded eagerly when the first role is requested (errors there
produce no roles), then one `Role` is yielded per expanded name; an error
during name expansion interrupts the stream after the roles already
yielded. -/
def process_ldap_entry (entry : Option JEntry) (rule : RoleRule) : PartialRes Role :=
  let m := expand_attributes entry rule.members
  match m.error with
  | some e => ⟨[], some e⟩
  | none =>
    let p := expand_attributes entry rule.parents
    match p.error with
    | some e => ⟨[], some e⟩
    | none =>
      let cres : Except ExpErr (Option String) :=
        match rule.comment with
        | none => .ok none
        | some ct =>
          let r := expand_attributes entry [ct]
          match r.produced with
          | c :: _ => .ok (some c)
          | [] =>
            match r.error with
            | some e => .error e
            | none => .error .stopIter
      match cres with
      | .error e => ⟨[], some e⟩
      | .ok comment =>
        let n := expand_attributes entry rule.names
        ⟨n.produced.map (fun nm =>
            { name := strLower nm,
              members := m.produced.map strLower,
              parents := p.produced.map strLower,
              options := rule.options,
              comment := comment }),
          n.error⟩

/-- A run-aborting error: `UserError` for errors raised as such by the code,
`crash` for exceptions that escape the handlers (e.g. a `TypeError` from
formatting a synthetic `None` entry). -/
inductive Err
  | user (msg : String)
  | crash (msg : String)
deriving DecidableEq, Repr

/-- Output of `apply_role_rules` / `apply_grant_rules` consumption: roles
produced (in order), warnings logged, and the error that interrupted the
stream, if any. -/
structure RROut where
  roles : List Role
  warns : List String
  err : Option Err
deriving DecidableEq, Repr

/-- The `for entry in entries` loop of `apply_role_rules` for one rule:
`RDNError` is handled according to the rule's `on_unexpected_dn` policy
(default `fail`), `ValueError` always aborts naming the entry. -/
def applyEntries (rule : RoleRule) : List (Option JEntry) → RROut
  | [] => ⟨[], [], none⟩
  | e :: rest =>
    let p := process_ldap_entry e rule
    match p.error with
    | none =>
      let r := applyEntries rule rest
      ⟨p.produced ++ r.roles, r.warns, r.err⟩
    | some (.rdn dn) =>
      let msg := "Unexpected DN: " ++ dn
      let pol := rule.on_unexpected_dn.getD "fail"
      if pol = "ignore" then
        let r := applyEntries rule rest
        ⟨p.produced ++ r.roles, r.warns, r.err⟩
      else if pol = "warn" then
        let r := applyEntries rule rest
        ⟨p.produced ++ r.roles, msg :: r.warns, r.err⟩
      else ⟨p.produced, [], some (.user msg)⟩
    | some (.val m) =>
      match e with
      | some ent =>
        ⟨p.produced, [], some (.user ("Failed to process " ++ strTake 48 ent.1 ++ ": " ++ m))⟩
      | none => ⟨p.produced, [], some (.crash "TypeError")⟩
    | some .stopIter => ⟨p.produced, [], some (.crash "RuntimeError")⟩

/-- `SyncManager.apply_role_rules`: rules applied in order over the entries;
the first uncaught error interrupts the whole stream. -/
def apply_role_rules (rules : List RoleRule) (entries : List (Option JEntry)) : RROut :=
  match rules with
  | [] => ⟨[], [], none⟩
  | r :: rs =>
    let o := applyEntries r entries
    match o.err with
    | some _ => o
    | none =>
      let o2 := apply_role_rules rs entries
      ⟨o.roles ++ o2.roles, o.warns ++ o2.warns, o2.err⟩

/-! ## Glob matching (model of Python's `fnmatch.fnmatch` on POSIX)

`fnmatch` is the standard-library glob matcher used by `apply_grant_rules`
(`role_match`) and `utils.match` (blacklist): `*` matches any sequence, `?`
any single character, `[seq]` a character class (leading `!` negates, `]` as
first member is literal, `a-z` is a range, an unterminated `[` is literal). -/

/-- Split a character class body from the remaining pattern: consume until
the closing `]`, which is a literal member when it comes first.  Returns the
class characters and the (strictly shorter) rest of the pattern. -/
def splitClassAux (acc : List Char) : (l : List Char) →
    Option (List Char × { r : List Char // r.length < l.length })
  | [] => none
  | c :: rest =>
    if c = ']' ∧ acc ≠ [] then some (acc.reverse, ⟨rest, by simp⟩)
    else
      match splitClassAux (c :: acc) rest with
      | none => none
      | some (cls, ⟨r, h⟩) => some (cls, ⟨r, by simpa using Nat.lt_succ_of_lt h⟩)

/-- Does a character class body (negation already stripped) match a
character?  Handles `a-z` ranges. -/
def classMatch : List Char → Char → Bool
  | [], _ => false
  | lo :: '-' :: hi :: rest, c =>
    if lo ≤ c ∧ c ≤ hi then true else classMatch rest c
  | x :: rest, c => x = c || classMatch rest c

/-- A glob pattern token. -/
inductive GTok
  | lit (c : Char)
  | any
  | star
  | cls (neg : Bool) (chars : List Char)
deriving DecidableEq, Repr

/-- Tokenize a glob pattern (the work of `fnmatch.translate`). -/
def tokenize : List Char → List GTok
  | [] => []
  | '*' :: ps => .star :: tokenize ps
  | '?' :: ps => .any :: tokenize ps
  | '[' :: '!' :: ps =>
    match splitClassAux [] ps with
    | some (cls, ⟨r, _⟩) => .cls true cls :: tokenize r
    | none => .lit '[' :: tokenize ('!' :: ps)
  | '[' :: ps =>
    match splitClassAux [] ps with
    | some (cls, ⟨r, _⟩) => .cls false cls :: tokenize r
    | none => .lit '[' :: tokenize ps
  | c :: ps => .lit c :: tokenize ps
termination_by l => l.length
decreasing_by all_goals (simp_wf; try omega)

/-- Match a token list against a character list (full match, as
`fnmatch.translate` anchors the pattern). -/
def gmatch : List GTok → List Char → Bool
  | [], [] => true
  | [], _ :: _ => false
  | .star :: ts, s =>
    gmatch ts s ||
      match s with
      | [] => false
      | _ :: cs => gmatch (.star :: ts) cs
  | .any :: ts, s =>
    match s with
    | [] => false
    | _ :: cs => gmatch ts cs
  | .lit c :: ts, s =>
    match s with
    | [] => false
    | d :: cs => c = d && gmatch ts cs
  | .cls neg cl :: ts, s =>
    match s with
    | [] => false
    | d :: cs => (neg != classMatch cl d) && gmatch ts cs
termination_by ts s => (ts.length, s.length)

/-- `fnmatch.fnmatch(name, pat)` (POSIX: `normcase` is the identity). -/
def fnmatch (name : String) (pat : String) : Bool :=
  gmatch (tokenize pat.data) name.data

/-! ## Grant rule engine (`apply_grant_rules`) -/

/-- A Python value as it appears in grant-rule fields: a string, a list of
names, or `None`. -/
inductive PyVal
  | str (s : String)
  | list (l : List String)
  | vnone
deriving DecidableEq, Repr

/-- The `databases` field of a `Grant`: either the `ALL_DATABASES` sentinel
(modelled from the spec: distinct from any explicit value) or the value from
the rule. -/
inductive GrantDbs
  | allDatabases
  | val (v : PyVal)
deriving DecidableEq, Repr

/-- Modelled from the spec: `Grant` from the absent `privilege.py` —
`Grant(privilege, databases, schemas, role)` with structural equality. -/
structure Grant where
  privilege : Option String
  databases : GrantDbs
  schemas : PyVal
  role : String
deriving DecidableEq, Repr

/-- A grant rule: the dict read by `apply_grant_rules`. -/
structure GrantRule where
  privilege : Option String := none
  databases : Option PyVal := none
  schemas : Option PyVal := none
  role_match : Option String := none
  roles : List Tmpl
deriving DecidableEq, Repr

/-- Output of consuming the `apply_grant_rules` generator. -/
structure GROut where
  grants : List Grant
  err : Option Err
deriving DecidableEq, Repr

/-- Truthiness of the `role_match` pattern (`if pattern and ...`). -/
def patternActive : Option String → Bool
  | none => false
  | some p => ¬ p = ""

/-- A printable form of an entry for the `%.32s` error message. -/
def entryRepr : Option JEntry → String
  | none => "None"
  | some e => "('" ++ e.1 ++ "', ...)"

/-- The message of an expansion error (`"%s" % e`). -/
def expMsg : ExpErr → String
  | .rdn dn => dn
  | .val m => m
  | .stopIter => "StopIteration"

/-- The `for entry in entries` loop of `apply_grant_rules` for one rule with
already-resolved privilege/databases/schemas/pattern: expand the role
templates eagerly (`list(...)`), abort with a `UserError` naming the entry on
failure, then yield one `Grant` per expanded lowercased role name that passes
the optional glob filter. -/
def applyGrantEntries (privilege : Option String) (dbs : GrantDbs) (schemas : PyVal)
    (pattern : Option String) (roleTs : List Tmpl) : List (Option JEntry) → GROut
  | [] => ⟨[], none⟩
  | e :: rest =>
    let r := expand_attributes e roleTs
    match r.error with
    | some err =>
      ⟨[], some (.user ("Failed to process " ++ strTake 32 (entryRepr e) ++ ": " ++ expMsg err))⟩
    | none =>
      let gs := (r.produced.map strLower).filterMap (fun role =>
        if patternActive pattern ∧ ¬ fnmatch role (pattern.getD "") then none
        else some ⟨privilege, dbs, schemas, role⟩)
      let t := applyGrantEntries privilege dbs schemas pattern roleTs rest
      ⟨gs ++ t.grants, t.err⟩

/-- Resolve a rule's `databases` field: default and the `__all__` wildcard
become the `ALL_DATABASES` sentinel. -/
def resolveDatabases (d : Option PyVal) : GrantDbs :=
  let d0 := d.getD (.str "__all__")
  if d0 = .str "__all__" then .allDatabases else .val d0

/-- Resolve a rule's `schemas` field: default, `None`, `__all__` and
`__any__` become `None`. -/
def resolveSchemas (s : Option PyVal) : PyVal :=
  let s0 := s.getD (.str "__all__")
  if s0 = .vnone ∨ s0 = .str "__all__" ∨ s0 = .str "__any__" then .vnone else s0

/-- `SyncManager.apply_grant_rules`. -/
def apply_grant_rules (grant : List GrantRule) (entries : List (Option JEntry)) : GROut :=
  match grant with
  | [] => ⟨[], none⟩
  | rule :: rs =>
    let o := applyGrantEntries rule.privilege (resolveDatabases rule.databases)
      (resolveSchemas rule.schemas) rule.role_match rule.roles entries
    match o.err with
    | some _ => o
    | none =>
      let o2 := apply_grant_rules rs entries
      ⟨o.grants ++ o2.grants, o2.err⟩

/-! ## Desired-state aggregation (`SyncManager.inspect_ldap`) -/

/-- One step of the role-aggregation loop of `inspect_ldap`: a role with a
fresh name is inserted; a role with a known name is merged into the new
declaration (`role.merge(ldaproles[role])`), a merge `ValueError` becoming a
`UserError` naming the role. -/
def foldRole (acc : List (String × Role)) (role : Role) : Except Err (List (String × Role)) :=
  match pyLookup acc role.name with
  | none => .ok (pyDictSet acc role.name role)
  | some old =>
    match role.merge old with
    | .ok merged => .ok (pyDictSet acc role.name merged)
    | .error _ =>
      .error (.user ("Role " ++ role.name ++ " redefined with different options."))

/-- The role-aggregation loop of `inspect_ldap` over a stream of produced
roles. -/
def foldRolesList (acc : List (String × Role)) : List Role → Except Err (List (String × Role))
  | [] => .ok acc
  | r :: rs =>
    match foldRole acc r with
    | .error e => .error e
    | .ok acc' => foldRolesList acc' rs

/-- Modelled from the spec: `Acl.add` from the absent `privilege.py` — a set
of grants, duplicates collapse. -/
def aclAdd (acl : List Grant) (g : Grant) : List Grant :=
  if acl.contains g then acl else acl ++ [g]

/-- The grant-aggregation loop of `inspect_ldap`. -/
def addGrants (acl : List Grant) : List Grant → List Grant
  | [] => acl
  | g :: gs => addGrants (aclAdd acl g) gs

/-- Modelled from the spec: `RoleOptions.fill_with_defaults` from the absent
`role.py` — after folding, options are filled with system-wide defaults so
diffing always compares fully-populated option sets. -/
def fillDefaults (defaults : List (String × OptVal)) (r : Role) : Role :=
  let opts := defaults.foldl
    (fun o p => if (pyLookup o p.1).isSome then o else pyDictSet o p.1 p.2) r.options
  { r with options := opts }

/-- The `ldap` directory query of a sync-map mapping. -/
structure LdapQuery where
  base : String
  filter : String
  attributes : List String
  joins : List (String × Join)
  scope : Nat
deriving Repr

/-- One mapping of the sync map: an optional directory query, role rules and
grant rules. -/
structure Mapping where
  ldap : Option LdapQuery
  roles : List RoleRule
  grant : List GrantRule := []
deriving Repr

/-- Entries a mapping's rules are evaluated against: the directory query's
results, or a single synthetic `None` entry when no query is configured. -/
def mappingEntries (conn : LdapConn) (m : Mapping) : Except Err (List (Option JEntry)) :=
  match m.ldap with
  | none => .ok [none]
  | some q =>
    match query_ldap conn q.base q.filter q.attributes q.joins q.scope with
    | .error e => .error (.user e)
    | .ok out => .ok (out.entries.map some)

/-- Process one mapping of the sync map: aggregate its role declarations
(with merge-conflict detection) and its grant declarations.  Merge conflicts
among produced roles surface before an error that interrupted the stream
later. -/
def inspectMapping (conn : LdapConn) (acc : List (String × Role) × List Grant)
    (m : Mapping) : Except Err (List (String × Role) × List Grant) :=
  match mappingEntries conn m with
  | .error e => .error e
  | .ok entries =>
    let rr := apply_role_rules m.roles entries
    match foldRolesList acc.1 rr.roles with
    | .error e => .error e
    | .ok ldaproles =>
      match rr.err with
      | some e => .error e
      | none =>
        let gr := apply_grant_rules m.grant entries
        let acl := addGrants acc.2 gr.grants
        match gr.err with
        | some e => .error e
        | none => .ok (ldaproles, acl)

/-- The fold of `inspect_ldap` over the sync map. -/
def inspectMappings (conn : LdapConn) (acc : List (String × Role) × List Grant) :
    List Mapping → Except Err (List (String × Role) × List Grant)
  | [] => .ok acc
  | m :: ms =>
    match inspectMapping conn acc m with
    | .error e => .error e
    | .ok acc' => inspectMappings conn acc' ms

/-- `SyncManager.inspect_ldap`: aggregate roles and grants over the sync map,
then lazily fill every role's options with defaults. -/
def inspect_ldap (conn : LdapConn) (defaults : List (String × OptVal))
    (syncmap : List Mapping) : Except Err (List Role × List Grant) :=
  match inspectMappings conn ([], []) syncmap with
  | .error e => .error e
  | .ok (ldaproles, acl) =>
    .ok ((ldaproles.map Prod.snd).map (fillDefaults defaults), acl)

/-! ## Reconciliation orchestrator (`SyncManager.sync`) -/

/-- Observable steps of `sync`, in execution order. -/
inductive Eff
  | filterSuperColumns
  | runRoleQueries
  | fetchSchemas
  | fetchGrants
  | postprocessAcl
  | grantDiff
  | runGrantQueries
deriving DecidableEq, Repr

/-- The external collaborators of `sync`, modelled from the spec (§6): the
actual-state inspector (`inspector.py`), the statement runner (`psql.py`),
and the diff/membership operations of the absent `role.py` / `privilege.py`.
`RolesT` is the inspector's role-set type, `SchT` the schema topology,
`AclT` the inspected ACL type and `Q` the corrective-statement type. -/
structure World (RolesT SchT AclT Q : Type) where
  me : String
  issuper : Bool
  roles_blacklist : List String
  databases : List String
  pgallroles : RolesT
  pgmanagedroles : RolesT
  filter_roles : RolesT → RolesT → RolesT × RolesT
  rolesDiff : RolesT → List Role → RolesT → List Q
  expandQRoles : List Q → List String → List Q
  expandQGrants : List Q → SchT → List Q
  run_queries : List Q → Nat
  dry : Bool
  updateRoles : RolesT → List Role → RolesT
  fetch_schemas : List String → List Role → SchT
  fetch_grants : SchT → RolesT → AclT
  expandgrants : List Grant → List (String × String) → List String → SchT →
    Except String (List Grant)
  aclDiff : AclT → List Grant → List String → List Q
  resolve_membership : List Role → Except String (List Role)
  privileges : List String
  privilege_aliases : List (String × String)

/-- `SyncManager.postprocess_acl`: expand the desired ACL against the
topology and re-add the expanded grants into a fresh ACL; failures become a
`UserError`. -/
def postprocess_acl {RolesT SchT AclT Q : Type} (W : World RolesT SchT AclT Q)
    (acl : List Grant) (schemas : SchT) : Except Err (List Grant) :=
  match W.expandgrants acl W.privilege_aliases W.privileges schemas with
  | .error e => .error (.user e)
  | .ok gs => .ok (addGrants [] gs)

/-- `SyncManager.sync`: inspect actual roles, inspect the directory, resolve
membership, diff and apply roles, then — only when privileges are
configured — inspect grant topology, diff and apply grants.  Returns the
corrective-action count and the trace of observable steps. -/
def sync {RolesT SchT AclT Q : Type} (W : World RolesT SchT AclT Q)
    (conn : LdapConn) (defaults : List (String × OptVal)) (syncmap : List Mapping) :
    Except Err (Nat × List Eff) :=
  let eff0 : List Eff := if W.issuper then [] else [.filterSuperColumns]
  let fr := W.filter_roles W.pgallroles W.pgmanagedroles
  match inspect_ldap conn defaults syncmap with
  | .error e => .error e
  | .ok (roles0, ldapacl) =>
    match W.resolve_membership roles0 with
    | .error e => .error (.user e)
    | .ok ldaproles =>
      let count1 := W.run_queries (W.expandQRoles (W.rolesDiff fr.2 ldaproles fr.1) W.databases)
      let eff1 := eff0 ++ [.runRoleQueries]
      if W.privileges.isEmpty then
        .ok (count1, eff1)
      else
        let pgmanaged2 := W.updateRoles fr.2 ldaproles
        let schemas := W.fetch_schemas W.databases ldaproles
        let pgacl := W.fetch_grants schemas pgmanaged2
        match postprocess_acl W ldapacl schemas with
        | .error e => .error e
        | .ok ldapacl2 =>
          let count2 := W.run_queries (W.expandQGrants (W.aclDiff pgacl ldapacl2 W.privileges) schemas)
          .ok (count1 + count2,
            eff1 ++ [.fetchSchemas, .fetchGrants, .postprocessAcl, .grantDiff, .runGrantQueries])


/-- A trivial concrete world over unit types, used to exercise `sync` on
concrete inputs. -/
def trivWorld : World Unit Unit Unit Unit where
  me := "postgres"
  issuper := true
  roles_blacklist := []
  databases := ["postgres"]
  pgallroles := ()
  pgmanagedroles := ()
  filter_roles := fun a b => (a, b)
  rolesDiff := fun _ _ _ => [(), (), ()]
  expandQRoles := fun qs _ => qs
  expandQGrants := fun qs _ => qs
  run_queries := fun qs => qs.length
  dry := false
  updateRoles := fun a _ => a
  fetch_schemas := fun _ _ => ()
  fetch_grants := fun _ _ => ()
  expandgrants := fun gs _ _ _ => .ok gs
  aclDiff := fun _ _ _ => []
  resolve_membership := fun rs => .ok rs
  privileges := []
  privilege_aliases := []

/-- A trivial concrete LDAP connection returning no result. -/
def trivConn : LdapConn := ⟨fun _ _ _ _ => .ok []⟩

/-! ## Lemma kit for the Python-dict model -/

@[simp]
theorem pyLookup_nil {α β : Type} [DecidableEq α] (a : α) :
    pyLookup ([] : List (α × β)) a = none := rfl

theorem pyLookup_cons {α β : Type} [DecidableEq α] (k : α) (v : β) (rest : List (α × β)) (a : α) :
    pyLookup ((k, v) :: rest) a = if k = a then some v else pyLookup rest a := rfl

theorem pyLookup_append {α β : Type} [DecidableEq α] (l₁ l₂ : List (α × β)) (a : α) :
    pyLookup (l₁ ++ l₂) a =
      match pyLookup l₁ a with
      | some v => some v
      | none => pyLookup l₂ a := by
  induction l₁ with
  | nil => simp [pyLookup]
  | cons p rest ih =>
    obtain ⟨k, v⟩ := p
    by_cases h : k = a <;> simp [pyLookup, h, ih]

@[simp]
theorem pyLookup_pyDictSet_self {α β : Type} [DecidableEq α]
    (d : List (α × β)) (k : α) (v : β) :
    pyLookup (pyDictSet d k v) k = some v := by
  induction d with
  | nil => simp [pyDictSet, pyLookup]
  | cons p rest ih =>
    obtain ⟨k', v'⟩ := p
    by_cases h : k' = k <;> simp [pyDictSet, pyLookup, h, ih]

theorem pyLookup_pyDictSet_ne {α β : Type} [DecidableEq α]
    (d : List (α × β)) (k : α) (v : β) (a : α) (h : k ≠ a) :
    pyLookup (pyDictSet d k v) a = pyLookup d a := by
  induction d with
  | nil => simp [pyDictSet, pyLookup, h]
  | cons p rest ih =>
    obtain ⟨k', v'⟩ := p
    by_cases h' : k' = k
    · subst h'
      simp [pyDictSet, pyLookup, h]
    · by_cases h'' : k' = a
      · simp [pyDictSet, pyLookup, h', h'', Ne.symm h, ih]
      · simp [pyDictSet, pyLookup, h', h'', ih]

/-- Membership after `pyDictSet` on a list with unique keys: the result is the
new pair, or an old pair at a different key. -/
theorem mem_pyDictSet {α β : Type} [DecidableEq α]
    (d : List (α × β)) (k : α) (v : β) (p : α × β)
    (hnd : (d.map Prod.fst).Nodup) (hp : p ∈ pyDictSet d k v) :
    p = (k, v) ∨ (p ∈ d ∧ p.1 ≠ k) := by
  induction d with
  | nil =>
    simp [pyDictSet] at hp
    exact Or.inl hp
  | cons q rest ih =>
    obtain ⟨k', v'⟩ := q
    simp only [List.map_cons, List.nodup_cons] at hnd
    by_cases h : k' = k
    · subst h
      rw [pyDictSet, if_pos rfl] at hp
      rcases List.mem_cons.mp hp with hp' | hp'
      · exact Or.inl hp'
      · right
        refine ⟨List.mem_cons_of_mem _ hp', ?_⟩
        intro hk
        exact hnd.1 (hk ▸ List.mem_map_of_mem Prod.fst hp')
    · rw [pyDictSet, if_neg h] at hp
      rcases List.mem_cons.mp hp with hp' | hp'
      · right
        subst hp'
        exact ⟨List.mem_cons_self _ _, h⟩
      · rcases ih hnd.2 hp' with h' | ⟨h₁, h₂⟩
        · exact Or.inl h'
        · exact Or.inr ⟨List.mem_cons_of_mem _ h₁, h₂⟩

/-- The pair just set is a member of the updated dict. -/
theorem pyDictSet_mem_self {α β : Type} [DecidableEq α]
    (d : List (α × β)) (k : α) (v : β) : (k, v) ∈ pyDictSet d k v := by
  induction d with
  | nil => simp [pyDictSet]
  | cons q rest ih =>
    obtain ⟨k', v'⟩ := q
    by_cases h : k' = k <;> simp [pyDictSet, h, ih]


@[simp]
theorem cntPair_nil (k : String × String) : cntPair [] k = 0 := rfl

theorem cntPair_append (l₁ l₂ : List (String × String)) (k : String × String) :
    cntPair (l₁ ++ l₂) k = cntPair l₁ k + cntPair l₂ k := by
  simp [cntPair, List.filter_append]

theorem cntPair_singleton (k k' : String × String) :
    cntPair [k'] k = if k' = k then 1 else 0 := by
  by_cases h : k' = k <;> simp [cntPair, h]

/-! ## Directory fetcher: referral discarding and logging (C7) -/

/-- Closed form of the `_query_ldap` result loop: one `discardRef` log per
zero-length-DN result, and the normalized non-referral results in order. -/
theorem buildEntries_eq (raw : List RawEntry) :
    buildEntries raw =
      (List.replicate (raw.countP (fun p => decide (p.1 = ""))) LogEvent.discardRef,
       (raw.filter (fun p => decide (¬ p.1 = ""))).map
         (fun p => lower_attributes (p.1, pyDictSet p.2 "dn" [p.1]))) := by
  induction raw with
  | nil => rfl
  | cons p rest ih =>
    obtain ⟨dn, attrs⟩ := p
    by_cases h : dn = "" <;>
      simp [buildEntries, ih, h, List.countP_cons, List.replicate_succ]

/-- C7 (amended): for every directory search result, `_query_ldap` discards
every raw result whose DN is zero-length (a referral) from the returned
sequence — but the count it logs is the number of raw results received,
referrals included, logged before the discarding loop runs. -/
theorem C7_fetcher_discards_referrals_and_logs_raw_count
    (conn : LdapConn) (base filter : String) (attrs : List String) (scope : Nat)
    (raw : List RawEntry) (h : conn.search_s base scope filter attrs = .ok raw) :
    _query_ldap conn base filter attrs scope =
      .ok (LogEvent.gotEntries raw.length ::
             List.replicate (raw.countP (fun p => decide (p.1 = ""))) LogEvent.discardRef,
           (raw.filter (fun p => decide (¬ p.1 = ""))).map
             (fun p => lower_attributes (p.1, pyDictSet p.2 "dn" [p.1]))) := by
  unfold _query_ldap
  rw [h]
  simp [buildEntries_eq]

/-- Witness for C7 at a concrete connection returning one referral and one
real entry. -/
theorem C7_witness :
    (LdapConn.mk fun _ _ _ _ =>
        .ok [("", [("ref", ["x"])]), ("cn=a", [("cn", ["a"])])]).search_s "b" 2 "f" ["cn"]
      = .ok [("", [("ref", ["x"])]), ("cn=a", [("cn", ["a"])])] ∧
    _query_ldap (LdapConn.mk fun _ _ _ _ =>
        .ok [("", [("ref", ["x"])]), ("cn=a", [("cn", ["a"])])]) "b" "f" ["cn"] 2
      = .ok ([LogEvent.gotEntries 2, LogEvent.discardRef],
             [("cn=a", [("cn", ["a"]), ("dn", ["cn=a"])])]) := by
  constructor
  · rfl
  · have h := C7_fetcher_discards_referrals_and_logs_raw_count
      (LdapConn.mk fun _ _ _ _ =>
        .ok [("", [("ref", ["x"])]), ("cn=a", [("cn", ["a"])])]) "b" "f" ["cn"] 2
      [("", [("ref", ["x"])]), ("cn=a", [("cn", ["a"])])] rfl
    rw [h]
    rfl

/-- Counterexample to C7 as stated: with one referral and one real result,
exactly one entry is retained, but the fetcher logs the count 2 (the raw
count) and never logs the retained count 1. -/
theorem C7_counterexample :
    _query_ldap (LdapConn.mk fun _ _ _ _ =>
        .ok [("", [("ref", ["x"])]), ("cn=a", [("cn", ["a"])])]) "b" "f" ["cn"] 2
      = .ok ([LogEvent.gotEntries 2, LogEvent.discardRef],
             [("cn=a", [("cn", ["a"]), ("dn", ["cn=a"])])]) ∧
    [("cn=a", [("cn", ["a"]), ("dn", ["cn=a"])])].length = 1 ∧
    LogEvent.gotEntries 1 ∉ [LogEvent.gotEntries 2, LogEvent.discardRef] := by
  refine ⟨?_, rfl, by decide⟩
  rfl

/-! ## Grant rule engine: filters and field resolution (C5, C6) -/

/-- Every grant a rule yields carries that rule's resolved privilege,
databases and schemas fields. -/
theorem applyGrantEntries_fields (privilege : Option String) (dbs : GrantDbs)
    (schemas : PyVal) (pattern : Option String) (roleTs : List Tmpl)
    (entries : List (Option JEntry)) (g : Grant)
    (hg : g ∈ (applyGrantEntries privilege dbs schemas pattern roleTs entries).grants) :
    g.privilege = privilege ∧ g.databases = dbs ∧ g.schemas = schemas := by
  induction entries with
  | nil => simp [applyGrantEntries] at hg
  | cons e rest ih =>
    rw [applyGrantEntries] at hg
    rcases he : (expand_attributes e roleTs).error with _ | err
    · rw [he] at hg
      simp only [List.mem_append] at hg
      rcases hg with hg | hg
      · rcases List.mem_filterMap.mp hg with ⟨role, _, hrole⟩
        by_cases hc : patternActive pattern ∧ ¬ fnmatch role (pattern.getD "")
        · simp [hc] at hrole
        · simp only [if_neg hc, Option.some.injEq] at hrole
          subst hrole
          exact ⟨rfl, rfl, rfl⟩
      · exact ih hg
    · rw [he] at hg
      simp at hg

/-- When the pattern filter is active, the per-role `filterMap` of
`applyGrantEntries` is a filter by `fnmatch` followed by building grants. -/
theorem filterMap_pattern (p : String) (hne : p ≠ "") (privilege : Option String)
    (dbs : GrantDbs) (schemas : PyVal) (roles : List String) :
    (roles.filterMap (fun role =>
        if patternActive (some p) ∧ ¬ fnmatch role ((some p).getD "") then none
        else some (⟨privilege, dbs, schemas, role⟩ : Grant))) =
      (roles.filter (fun r => fnmatch r p)).map
        (fun r => ⟨privilege, dbs, schemas, r⟩) := by
  induction roles with
  | nil => rfl
  | cons r rest ih =>
    rw [List.filterMap_cons, List.filter_cons, ih]
    by_cases hm : fnmatch r p <;> simp [patternActive, hne, hm]

/-- C5: for a rule carrying a (nonempty) `role_match` glob pattern whose
role-template expansion succeeds on every entry, `apply_grant_rules` yields
exactly one grant per expanded, lowercased role name matching the pattern,
in order, and raises no error: non-matching roles are skipped silently. -/
theorem C5_role_match_filters_grants (rule : GrantRule) (p : String)
    (entries : List (Option JEntry))
    (hp : rule.role_match = some p) (hne : p ≠ "")
    (hok : ∀ e ∈ entries, (expand_attributes e rule.roles).error = none) :
    apply_grant_rules [rule] entries =
      ⟨entries.flatMap (fun e =>
          ((((expand_attributes e rule.roles).produced.map strLower).filter
              (fun r => fnmatch r p)).map
            (fun r => ⟨rule.privilege, resolveDatabases rule.databases,
                       resolveSchemas rule.schemas, r⟩))),
        none⟩ := by
  have key : ∀ es, (∀ e ∈ es, (expand_attributes e rule.roles).error = none) →
      applyGrantEntries rule.privilege (resolveDatabases rule.databases)
        (resolveSchemas rule.schemas) rule.role_match rule.roles es =
      ⟨es.flatMap (fun e =>
          ((((expand_attributes e rule.roles).produced.map strLower).filter
              (fun r => fnmatch r p)).map
            (fun r => ⟨rule.privilege, resolveDatabases rule.databases,
                       resolveSchemas rule.schemas, r⟩))),
        none⟩ := by
    intro es hes
    induction es with
    | nil => rfl
    | cons e rest ih =>
      have he := hes e (List.mem_cons_self _ _)
      rw [applyGrantEntries, he]
      rw [ih (fun e' he' => hes e' (List.mem_cons_of_mem _ he'))]
      rw [hp]
      rw [filterMap_pattern p hne]
      simp [List.flatMap_cons]
  rw [apply_grant_rules, key entries hok]
  simp [apply_grant_rules]

/-- Witness for C5: the spec scenario — a rule with `role_match = "app_*"`
over expanded roles `app_ro` and `admin` yields exactly one grant, for
`app_ro`, and no error. -/
theorem C5_witness :
    ({ role_match := some "app_*",
       roles := [Tmpl.static "APP_RO", Tmpl.static "admin"] } : GrantRule).role_match
      = some "app_*" ∧
    "app_*" ≠ "" ∧
    (∀ e ∈ ([none] : List (Option JEntry)),
      (expand_attributes e [Tmpl.static "APP_RO", Tmpl.static "admin"]).error = none) ∧
    apply_grant_rules
        [{ role_match := some "app_*",
           roles := [Tmpl.static "APP_RO", Tmpl.static "admin"] }] [none] =
      ⟨[⟨none, GrantDbs.allDatabases, PyVal.vnone, "app_ro"⟩], none⟩ := by
  refine ⟨rfl, by decide, by decide, ?_⟩
  have h := C5_role_match_filters_grants
    { role_match := some "app_*", roles := [Tmpl.static "APP_RO", Tmpl.static "admin"] }
    "app_*" [none] rfl (by decide) (by decide)
  rw [h]
  simp [expand_attributes, expandOne, strLower, fnmatch, tokenize, gmatch,
    resolveDatabases, resolveSchemas]

/-- C6: every grant yielded by `apply_grant_rules` has its `databases` field
equal to the `ALL_DATABASES` sentinel when the rule leaves `databases`
unspecified or gives the `__all__` wildcard, and its `schemas` field equal
to `None` when the rule leaves `schemas` unspecified or gives the `__all__`
or `__any__` wildcard. -/
theorem C6_grant_field_defaults (rule : GrantRule) (entries : List (Option JEntry))
    (g : Grant) (hg : g ∈ (apply_grant_rules [rule] entries).grants) :
    ((rule.databases = none ∨ rule.databases = some (PyVal.str "__all__")) →
      g.databases = GrantDbs.allDatabases) ∧
    ((rule.schemas = none ∨ rule.schemas = some (PyVal.str "__all__") ∨
        rule.schemas = some (PyVal.str "__any__")) →
      g.schemas = PyVal.vnone) := by
  have hg' : g ∈ (applyGrantEntries rule.privilege (resolveDatabases rule.databases)
      (resolveSchemas rule.schemas) rule.role_match rule.roles entries).grants := by
    rw [apply_grant_rules] at hg
    rcases herr : (applyGrantEntries rule.privilege (resolveDatabases rule.databases)
        (resolveSchemas rule.schemas) rule.role_match rule.roles entries).err with _ | e
    · rw [herr] at hg
      simpa [apply_grant_rules] using hg
    · rw [herr] at hg
      exact hg
  obtain ⟨-, hdb, hsch⟩ := applyGrantEntries_fields rule.privilege
    (resolveDatabases rule.databases) (resolveSchemas rule.schemas)
    rule.role_match rule.roles entries g hg'
  constructor
  · rintro (h | h) <;> rw [hdb] <;> simp [resolveDatabases, h]
  · rintro (h | h | h) <;> rw [hsch] <;> simp [resolveSchemas, h]

/-- Witness for C6: a rule with both fields unspecified yields a grant whose
databases field is the sentinel and whose schemas field is `None`. -/
theorem C6_witness :
    (⟨none, GrantDbs.allDatabases, PyVal.vnone, "app_ro"⟩ : Grant) ∈
      (apply_grant_rules [{ roles := [Tmpl.static "app_ro"] }] [none]).grants ∧
    (⟨none, GrantDbs.allDatabases, PyVal.vnone, "app_ro"⟩ : Grant).databases
      = GrantDbs.allDatabases ∧
    (⟨none, GrantDbs.allDatabases, PyVal.vnone, "app_ro"⟩ : Grant).schemas
      = PyVal.vnone := by
  refine ⟨by decide, ?_, ?_⟩
  · exact (C6_grant_field_defaults { roles := [Tmpl.static "app_ro"] } [none]
      ⟨none, GrantDbs.allDatabases, PyVal.vnone, "app_ro"⟩ (by decide)).1 (Or.inl rfl)
  · exact (C6_grant_field_defaults { roles := [Tmpl.static "app_ro"] } [none]
      ⟨none, GrantDbs.allDatabases, PyVal.vnone, "app_ro"⟩ (by decide)).2 (Or.inl rfl)

/-! ## Role rule engine: unexpected-DN policy (C3, C10) -/

/-- C3: when role-rule expansion on an entry raises an unexpected-DN error
(`RDNError`), `apply_role_rules` applies the rule's `on_unexpected_dn`
policy — `ignore` skips the entry silently, `warn` skips it logging a
warning, and any other value (including the default `fail`) aborts the run
with a mapping `UserError`; a `ValueError` expansion failure always aborts
with a mapping `UserError` naming the offending entry. -/
theorem C3_unexpected_dn_policy (rule : RoleRule) (e : JEntry)
    (post : List (Option JEntry)) :
    (∀ dn pfx,
      process_ldap_entry (some e) rule = ⟨pfx, some (ExpErr.rdn dn)⟩ →
      ((rule.on_unexpected_dn.getD "fail" = "ignore" →
          applyEntries rule (some e :: post) =
            ⟨pfx ++ (applyEntries rule post).roles,
             (applyEntries rule post).warns, (applyEntries rule post).err⟩) ∧
       (rule.on_unexpected_dn.getD "fail" = "warn" →
          applyEntries rule (some e :: post) =
            ⟨pfx ++ (applyEntries rule post).roles,
             ("Unexpected DN: " ++ dn) :: (applyEntries rule post).warns,
             (applyEntries rule post).err⟩) ∧
       (rule.on_unexpected_dn.getD "fail" ≠ "ignore" →
        rule.on_unexpected_dn.getD "fail" ≠ "warn" →
          applyEntries rule (some e :: post) =
            ⟨pfx, [], some (Err.user ("Unexpected DN: " ++ dn))⟩))) ∧
    (∀ m pfx,
      process_ldap_entry (some e) rule = ⟨pfx, some (ExpErr.val m)⟩ →
      applyEntries rule (some e :: post) =
        ⟨pfx, [], some (Err.user ("Failed to process " ++ strTake 48 e.1 ++ ": " ++ m))⟩) := by
  constructor
  · intro dn pfx hproc
    refine ⟨?_, ?_, ?_⟩
    · intro hpol
      rw [applyEntries, hproc, hpol]
      simp
    · intro hpol
      rw [applyEntries, hproc, hpol]
      simp
    · intro h1 h2
      rw [applyEntries, hproc]
      simp [h1, h2]
  · intro m pfx hproc
    rw [applyEntries, hproc]

/-- Witness for C3 at a concrete rule and entry: the `warn` policy skips the
entry after the already-yielded role, logging the warning, and the same
expansion under the default policy aborts with the mapping error. -/
theorem C3_witness :
    process_ldap_entry
        (some ("cn=alice,dc=x", [("dn", [("cn=alice,dc=x", [])])]))
        { names := [Tmpl.static "sa", Tmpl.attrRdn "dn" "uid"],
          on_unexpected_dn := some "warn" } =
      ⟨[{ name := "sa", members := [], parents := [], options := [], comment := none }],
       some (ExpErr.rdn "cn=alice,dc=x")⟩ ∧
    applyEntries
        { names := [Tmpl.static "sa", Tmpl.attrRdn "dn" "uid"],
          on_unexpected_dn := some "warn" }
        [some ("cn=alice,dc=x", [("dn", [("cn=alice,dc=x", [])])])] =
      ⟨[{ name := "sa", members := [], parents := [], options := [], comment := none }],
       ["Unexpected DN: cn=alice,dc=x"], none⟩ := by
  constructor
  · decide
  · exact (((C3_unexpected_dn_policy
      { names := [Tmpl.static "sa", Tmpl.attrRdn "dn" "uid"],
        on_unexpected_dn := some "warn" }
      ("cn=alice,dc=x", [("dn", [("cn=alice,dc=x", [])])]) []).1
      "cn=alice,dc=x"
      [{ name := "sa", members := [], parents := [], options := [], comment := none }]
      (by decide)).2.1 rfl).trans (by decide)

/-- C10: skipping an entry under the `ignore` or `warn` policy is not
atomic — every role yielded for the entry before the unexpected-DN error is
retained (as a prefix) in the stream consumed by the aggregator. -/
theorem C10_skip_retains_yielded_roles (rule : RoleRule) (e : JEntry)
    (post : List (Option JEntry)) (dn : String) (pfx : List Role)
    (hproc : process_ldap_entry (some e) rule = ⟨pfx, some (ExpErr.rdn dn)⟩)
    (hpol : rule.on_unexpected_dn.getD "fail" = "ignore" ∨
            rule.on_unexpected_dn.getD "fail" = "warn") :
    (applyEntries rule (some e :: post)).roles =
      pfx ++ (applyEntries rule post).roles := by
  rcases hpol with hpol | hpol <;>
    · rw [applyEntries, hproc]
      simp [hpol]

/-- Witness for C10 at a concrete rule and entry under the `ignore` policy:
the role yielded before the unexpected-DN error is kept. -/
theorem C10_witness :
    process_ldap_entry
        (some ("cn=bob,dc=y", [("dn", [("cn=bob,dc=y", [])])]))
        { names := [Tmpl.static "kept", Tmpl.attrRdn "dn" "ou"],
          on_unexpected_dn := some "ignore" } =
      ⟨[{ name := "kept", members := [], parents := [], options := [], comment := none }],
       some (ExpErr.rdn "cn=bob,dc=y")⟩ ∧
    (applyEntries
        { names := [Tmpl.static "kept", Tmpl.attrRdn "dn" "ou"],
          on_unexpected_dn := some "ignore" }
        [some ("cn=bob,dc=y", [("dn", [("cn=bob,dc=y", [])])])]).roles =
      [{ name := "kept", members := [], parents := [], options := [], comment := none }] := by
  constructor
  · decide
  · exact (C10_skip_retains_yielded_roles
      { names := [Tmpl.static "kept", Tmpl.attrRdn "dn" "ou"],
        on_unexpected_dn := some "ignore" }
      ("cn=bob,dc=y", [("dn", [("cn=bob,dc=y", [])])]) [] "cn=bob,dc=y"
      [{ name := "kept", members := [], parents := [], options := [], comment := none }]
      (by decide) (Or.inl rfl)).trans (by decide)

/-! ## Desired-state aggregation: role merge (C2) -/

/-- Python dict equality is symmetric. -/
theorem optionsEq_symm (a b : List (String × OptVal)) :
    optionsEq a b = optionsEq b a := by
  simp [optionsEq, Bool.and_comm]

/-- Membership in a list union. -/
theorem mem_listUnion (a b : List String) (x : String) :
    x ∈ listUnion a b ↔ x ∈ a ∨ x ∈ b := by
  simp only [listUnion, List.mem_append, List.mem_filter]
  constructor
  · rintro (h | ⟨h, -⟩)
    · exact Or.inl h
    · exact Or.inr h
  · intro h
    by_cases ha : x ∈ a
    · exact Or.inl ha
    · rcases h with h | h
      · exact absurd h ha
      · exact Or.inr ⟨h, by simpa using ha⟩

/-- C2: two role declarations with the same name produced during
aggregation merge when their options are structurally equal — member and
parent sets are unioned into a single declaration — and abort with a
conflict `UserError` naming the role when their options differ, in either
encounter order. -/
theorem C2_role_merge_or_conflict (r1 r2 : Role) (hname : r1.name = r2.name) :
    (optionsEq r1.options r2.options = true →
      ∃ m12 m21,
        foldRolesList [] [r1, r2] = .ok [(r1.name, m12)] ∧
        foldRolesList [] [r2, r1] = .ok [(r1.name, m21)] ∧
        m12.name = r2.name ∧ m21.name = r1.name ∧
        (∀ x, x ∈ m12.members ↔ x ∈ r1.members ∨ x ∈ r2.members) ∧
        (∀ x, x ∈ m21.members ↔ x ∈ r1.members ∨ x ∈ r2.members) ∧
        (∀ x, x ∈ m12.parents ↔ x ∈ r1.parents ∨ x ∈ r2.parents) ∧
        (∀ x, x ∈ m21.parents ↔ x ∈ r1.parents ∨ x ∈ r2.parents)) ∧
    (optionsEq r1.options r2.options = false →
      foldRolesList [] [r1, r2] =
        .error (.user ("Role " ++ r2.name ++ " redefined with different options.")) ∧
      foldRolesList [] [r2, r1] =
        .error (.user ("Role " ++ r1.name ++ " redefined with different options."))) := by
  have hlook12 : pyLookup [(r1.name, r1)] r2.name = some r1 := by
    simp [pyLookup, hname]
  have hlook21 : pyLookup [(r2.name, r2)] r1.name = some r2 := by
    simp [pyLookup, hname]
  constructor
  · intro hopts
    have hopts21 : optionsEq r2.options r1.options = true := by
      rw [optionsEq_symm]; exact hopts
    refine ⟨mergedRole r2 r1, mergedRole r1 r2, ?_, ?_, rfl, rfl, ?_, ?_, ?_, ?_⟩
    · simp [foldRolesList, foldRole, pyLookup, pyDictSet, hlook12, Role.merge,
        hopts21, hname]
    · simp [foldRolesList, foldRole, pyLookup, pyDictSet, hlook21, Role.merge,
        hopts, hname]
    · intro x
      rw [show (mergedRole r2 r1).members = listUnion r2.members r1.members from rfl,
        mem_listUnion]
      exact Or.comm
    · intro x
      exact mem_listUnion _ _ x
    · intro x
      rw [show (mergedRole r2 r1).parents = listUnion r2.parents r1.parents from rfl,
        mem_listUnion]
      exact Or.comm
    · intro x
      exact mem_listUnion _ _ x
  · intro hopts
    have hopts21 : optionsEq r2.options r1.options = false := by
      rw [optionsEq_symm]; exact hopts
    constructor
    · simp [foldRolesList, foldRole, pyLookup, pyDictSet, hlook12, Role.merge,
        hopts21, hname]
    · simp [foldRolesList, foldRole, pyLookup, pyDictSet, hlook21, Role.merge,
        hopts, hname]

/-- Witness for C2 at two concrete `readers` declarations with identical
options and different members, and at two with incompatible options. -/
theorem C2_witness :
    (optionsEq [("LOGIN", OptVal.b true)] [("LOGIN", OptVal.b true)] = true ∧
      ∃ m12 m21,
        foldRolesList []
          [{ name := "readers", members := ["alice"], parents := [],
             options := [("LOGIN", OptVal.b true)], comment := none },
           { name := "readers", members := ["bob"], parents := [],
             options := [("LOGIN", OptVal.b true)], comment := none }] =
          .ok [("readers", m12)] ∧
        foldRolesList []
          [{ name := "readers", members := ["bob"], parents := [],
             options := [("LOGIN", OptVal.b true)], comment := none },
           { name := "readers", members := ["alice"], parents := [],
             options := [("LOGIN", OptVal.b true)], comment := none }] =
          .ok [("readers", m21)] ∧
        m12.name = "readers" ∧ m21.name = "readers" ∧
        (∀ x, x ∈ m12.members ↔ x ∈ ["alice"] ∨ x ∈ ["bob"]) ∧
        (∀ x, x ∈ m21.members ↔ x ∈ ["alice"] ∨ x ∈ ["bob"]) ∧
        (∀ x, x ∈ m12.parents ↔ x ∈ ([] : List String) ∨ x ∈ ([] : List String)) ∧
        (∀ x, x ∈ m21.parents ↔ x ∈ ([] : List String) ∨ x ∈ ([] : List String))) ∧
    (optionsEq [("LOGIN", OptVal.b true)] [("LOGIN", OptVal.b false)] = false ∧
      foldRolesList []
        [{ name := "readers", members := [], parents := [],
           options := [("LOGIN", OptVal.b true)], comment := none },
         { name := "readers", members := [], parents := [],
           options := [("LOGIN", OptVal.b false)], comment := none }] =
        .error (.user "Role readers redefined with different options.")) := by
  constructor
  · exact ⟨by decide,
      (C2_role_merge_or_conflict
        { name := "readers", members := ["alice"], parents := [],
          options := [("LOGIN", OptVal.b true)], comment := none }
        { name := "readers", members := ["bob"], parents := [],
          options := [("LOGIN", OptVal.b true)], comment := none } rfl).1 (by decide)⟩
  · exact ⟨by decide,
      ((C2_role_merge_or_conflict
        { name := "readers", members := [], parents := [],
          options := [("LOGIN", OptVal.b true)], comment := none }
        { name := "readers", members := [], parents := [],
          options := [("LOGIN", OptVal.b false)], comment := none } rfl).2 (by decide)).1⟩

/-! ## Reconciliation orchestrator: privilege gating and ordering (C4) -/

/-- C4: with no privileges configured, a successful `sync` performs no
grant-topology inspection, no grant fetch, no ACL post-processing and no
grant diff — its trace stops at the role queries — and its returned count is
exactly the role-action count; with privileges configured, a successful
`sync`'s trace runs the role queries strictly before every grant step. -/
theorem C4_privileges_gate_and_order {RolesT SchT AclT Q : Type}
    (W : World RolesT SchT AclT Q) (conn : LdapConn)
    (defaults : List (String × OptVal)) (syncmap : List Mapping) :
    (W.privileges = [] → ∀ n tr, sync W conn defaults syncmap = .ok (n, tr) →
      (Eff.fetchSchemas ∉ tr ∧ Eff.fetchGrants ∉ tr ∧ Eff.postprocessAcl ∉ tr ∧
        Eff.grantDiff ∉ tr ∧ Eff.runGrantQueries ∉ tr) ∧
      tr = (if W.issuper then [] else [Eff.filterSuperColumns]) ++ [Eff.runRoleQueries] ∧
      (∃ roles0 acl roles1,
        inspect_ldap conn defaults syncmap = .ok (roles0, acl) ∧
        W.resolve_membership roles0 = .ok roles1 ∧
        n = W.run_queries (W.expandQRoles
          (W.rolesDiff (W.filter_roles W.pgallroles W.pgmanagedroles).2 roles1
            (W.filter_roles W.pgallroles W.pgmanagedroles).1) W.databases))) ∧
    (W.privileges ≠ [] → ∀ n tr, sync W conn defaults syncmap = .ok (n, tr) →
      tr = (if W.issuper then [] else [Eff.filterSuperColumns]) ++
        [Eff.runRoleQueries, Eff.fetchSchemas, Eff.fetchGrants, Eff.postprocessAcl,
         Eff.grantDiff, Eff.runGrantQueries]) := by
  constructor
  · intro hp n tr hsync
    rw [sync] at hsync
    rcases hins : inspect_ldap conn defaults syncmap with e | ⟨roles0, acl⟩ <;>
      rw [hins] at hsync <;> dsimp only at hsync
    · exact absurd hsync (by simp)
    · rcases hres : W.resolve_membership roles0 with e | roles1 <;>
        rw [hres] at hsync <;> dsimp only at hsync
      · exact absurd hsync (by simp)
      · have hempty : W.privileges.isEmpty = true := by simp [hp]
        rw [if_pos hempty] at hsync
        obtain ⟨hn, htr⟩ : _ ∧ _ := by
          injection hsync with h
          injection h with h1 h2
          exact ⟨h1, h2⟩
        subst hn
        subst htr
        refine ⟨?_, rfl, roles0, acl, roles1, rfl, hres, rfl⟩
        by_cases hsup : W.issuper <;> simp [hsup]
  · intro hp n tr hsync
    rw [sync] at hsync
    rcases hins : inspect_ldap conn defaults syncmap with e | ⟨roles0, acl⟩ <;>
      rw [hins] at hsync <;> dsimp only at hsync
    · exact absurd hsync (by simp)
    · rcases hres : W.resolve_membership roles0 with e | roles1 <;>
        rw [hres] at hsync <;> dsimp only at hsync
      · exact absurd hsync (by simp)
      · have hne : W.privileges.isEmpty = false := by
          cases hpriv : W.privileges with
          | nil => exact absurd hpriv hp
          | cons a l => simp
        rw [if_neg (by simp [hne])] at hsync
        rcases hpp : postprocess_acl W acl
            (W.fetch_schemas W.databases roles1) with e | acl2 <;>
          rw [hpp] at hsync <;> dsimp only at hsync
        · exact absurd hsync (by simp)
        · obtain ⟨hn, htr⟩ : _ ∧ _ := by
            injection hsync with h
            injection h with h1 h2
            exact ⟨h1, h2⟩
          subst htr
          simp

/-- Witness for C4 at the trivial world (no privileges configured, empty
sync map): the count is the three role queries and the trace stops at the
role queries. -/
theorem C4_witness :
    trivWorld.privileges = [] ∧
    sync trivWorld trivConn [] [] = .ok (3, [Eff.runRoleQueries]) ∧
    (Eff.fetchSchemas ∉ [Eff.runRoleQueries] ∧ Eff.fetchGrants ∉ [Eff.runRoleQueries] ∧
      Eff.postprocessAcl ∉ [Eff.runRoleQueries] ∧ Eff.grantDiff ∉ [Eff.runRoleQueries] ∧
      Eff.runGrantQueries ∉ [Eff.runRoleQueries]) ∧
    [Eff.runRoleQueries] =
      (if trivWorld.issuper then [] else [Eff.filterSuperColumns]) ++ [Eff.runRoleQueries] := by
  refine ⟨rfl, rfl, ?_, rfl⟩
  exact ((C4_privileges_gate_and_order trivWorld trivConn [] []).1
    rfl 3 [Eff.runRoleQueries] rfl).1

/-! ## Join resolver: cache invariant (C1, C8, C9) -/

theorem cntPair_snoc_self (l : List (String × String)) (k : String × String) :
    cntPair (l ++ [k]) k = cntPair l k + 1 := by
  simp [cntPair_append, cntPair_singleton]

theorem cntPair_snoc_ne (l : List (String × String)) (k k' : String × String)
    (h : k ≠ k') : cntPair (l ++ [k]) k' = cntPair l k' := by
  simp [cntPair_append, cntPair_singleton, h]

theorem dictUpdate_single_ne_nil (k : String) (w : List String) (upd : SubAttrs) :
    dictUpdate [(k, w)] upd ≠ [] := by
  cases h : pyLookup upd k <;> simp [dictUpdate, h]

theorem pyLookup_dictUpdate_single (k : String) (w : List String) (upd : SubAttrs) :
    pyLookup (dictUpdate [(k, w)] upd) k = some ((pyLookup upd k).getD w) := by
  cases h : pyLookup upd k <;> simp [dictUpdate, h, pyLookup]

/-- Values recorded in the cache are never empty. -/
theorem cacheVal_ne_nil (conn : LdapConn) (joins : List (String × Join)) (a v : String)
    (sa : SubAttrs) (h : cacheVal conn joins a v = some sa) : sa ≠ [] := by
  rw [cacheVal] at h
  rcases hj : pyLookup joins a with _ | j
  · rw [hj] at h
    exact absurd h (by simp)
  · rw [hj] at h
    dsimp only at h
    by_cases he : j.attributes.isEmpty
    · rw [if_pos he] at h
      obtain rfl : [("dn", [v])] = sa := by injection h
      simp
    · rw [if_neg he] at h
      rcases hq : _query_ldap conn v j.filter j.attributes j.scope with e | ⟨l, es⟩
      · rw [hq] at h
        exact absurd h (by simp)
      · rw [hq] at h
        cases es with
        | nil => exact absurd h (by simp)
        | cons e0 rest =>
          obtain rfl : dictUpdate [("dn", [v])] e0.2 = sa := by injection h
          exact dictUpdate_single_ne_nil _ _ _

theorem cacheHit_set_ne (cache : List ((String × String) × SubAttrs))
    (k k' : String × String) (sa : SubAttrs) (h : k ≠ k') :
    cacheHit (pyDictSet cache k sa) k' = cacheHit cache k' := by
  rw [cacheHit, cacheHit, pyLookup_pyDictSet_ne _ _ _ _ h]

theorem cacheHit_set_self (cache : List ((String × String) × SubAttrs))
    (k : String × String) (sa : SubAttrs) (h : sa ≠ []) :
    cacheHit (pyDictSet cache k sa) k = some sa := by
  rw [cacheHit, pyLookup_pyDictSet_self]
  simp [h]

/-- A cache hit is a lookup of a nonempty value. -/
theorem cacheHit_eq_some (cache : List ((String × String) × SubAttrs))
    (k : String × String) (sa : SubAttrs) (h : cacheHit cache k = some sa) :
    pyLookup cache k = some sa ∧ sa ≠ [] := by
  rw [cacheHit] at h
  rcases hl : pyLookup cache k with _ | sa'
  · rw [hl] at h
    exact absurd h (by simp)
  · rw [hl] at h
    dsimp only at h
    by_cases he : sa'.isEmpty
    · rw [if_pos he] at h
      exact absurd h (by simp)
    · rw [if_neg he] at h
      obtain rfl : sa' = sa := by injection h
      exact ⟨rfl, by simpa using he⟩

/-- Recording a nested fetch for an unresolvable pair (and possibly a
warning) preserves the invariant without touching the cache. -/
theorem JInv_fetch_nocache (conn : LdapConn) (joins : List (String × Join))
    (attr v : String) (j : Join) (st : JoinSt) (warns2 : List String)
    (hj : pyLookup joins attr = some j) (he : ¬ j.attributes.isEmpty)
    (hng : ¬ goodPair conn joins attr v) (hinv : JInv conn joins st) :
    JInv conn joins ⟨st.cache, st.fetches ++ [(attr, v)], warns2⟩ := by
  obtain ⟨hc, hf, hg⟩ := hinv
  refine ⟨hc, ?_, ?_⟩
  · intro a' v' hcnt
    by_cases hk : (attr, v) = (a', v')
    · injection hk with h1 h2
      subst h1
      subst h2
      exact ⟨j, hj, by simpa using he⟩
    · rw [cntPair_snoc_ne _ _ _ hk] at hcnt
      exact hf a' v' hcnt
  · intro a' v' hgood
    by_cases hk : (attr, v) = (a', v')
    · injection hk with h1 h2
      subst h1
      subst h2
      exact absurd hgood hng
    · rw [cntPair_snoc_ne _ _ _ hk]
      exact hg a' v' hgood

/-- One step of the inner join loop preserves the cache invariant. -/
theorem processValue_inv (conn : LdapConn) (joins : List (String × Join))
    (attr : String) (st : JoinSt) (v : String) (hinv : JInv conn joins st) :
    JInv conn joins (processValue conn joins attr st v).1 := by
  obtain ⟨hc, hf, hg⟩ := hinv
  rw [processValue]
  rcases hj : pyLookup joins attr with _ | j
  · exact ⟨hc, hf, hg⟩
  · rcases hh : cacheHit st.cache (attr, v) with _ | sa
    · dsimp only
      by_cases he : j.attributes.isEmpty
      · rw [if_pos he]
        show JInv conn joins
          ⟨pyDictSet st.cache (attr, v) [("dn", [v])], st.fetches, st.warns⟩
        refine ⟨?_, hf, ?_⟩
        · intro a' v' sa' hlook
          by_cases hk : (attr, v) = (a', v')
          · injection hk with h1 h2
            subst h1
            subst h2
            rw [pyLookup_pyDictSet_self] at hlook
            obtain rfl : [("dn", [v])] = sa' := by injection hlook
            simp [cacheVal, hj, he]
          · rw [pyLookup_pyDictSet_ne _ _ _ _ hk] at hlook
            exact hc a' v' sa' hlook
        · intro a' v' hgood
          refine ⟨(hg a' v' hgood).1, fun hcnt => ?_⟩
          by_cases hk : (attr, v) = (a', v')
          · injection hk with h1 h2
            subst h1
            subst h2
            simp [cacheHit_set_self _ _ _ (by simp : ([("dn", [v])] : SubAttrs) ≠ [])]
          · rw [cacheHit_set_ne _ _ _ _ hk]
            exact (hg a' v' hgood).2 hcnt
      · rw [if_neg he]
        rcases hq : _query_ldap conn v j.filter j.attributes j.scope with e | ⟨l, es⟩
        · show JInv conn joins
            ⟨st.cache, st.fetches ++ [(attr, v)],
             st.warns ++ ["Ignoring " ++ v ++ ": " ++ e]⟩
          refine JInv_fetch_nocache conn joins attr v j st _ hj he ?_ ⟨hc, hf, hg⟩
          rintro ⟨j', hj', hd⟩
          rw [hj] at hj'
          obtain rfl : j = j' := by injection hj'
          rcases hd with hd | ⟨l', e', es', hd⟩
          · exact absurd hd (by simpa using he)
          · rw [hq] at hd
            exact absurd hd (by simp)
        · cases es with
          | nil =>
            show JInv conn joins ⟨st.cache, st.fetches ++ [(attr, v)], st.warns⟩
            refine JInv_fetch_nocache conn joins attr v j st _ hj he ?_ ⟨hc, hf, hg⟩
            rintro ⟨j', hj', hd⟩
            rw [hj] at hj'
            obtain rfl : j = j' := by injection hj'
            rcases hd with hd | ⟨l', e', es', hd⟩
            · exact absurd hd (by simpa using he)
            · rw [hq] at hd
              exact absurd hd (by simp)
          | cons e0 rest =>
            show JInv conn joins
              ⟨pyDictSet st.cache (attr, v) (dictUpdate [("dn", [v])] e0.2),
               st.fetches ++ [(attr, v)], st.warns⟩
            refine ⟨?_, ?_, ?_⟩
            · intro a' v' sa' hlook
              by_cases hk : (attr, v) = (a', v')
              · injection hk with h1 h2
                subst h1
                subst h2
                rw [pyLookup_pyDictSet_self] at hlook
                obtain rfl : dictUpdate [("dn", [v])] e0.2 = sa' := by injection hlook
                simp [cacheVal, hj, he, hq]
              · rw [pyLookup_pyDictSet_ne _ _ _ _ hk] at hlook
                exact hc a' v' sa' hlook
            · intro a' v' hcnt
              by_cases hk : (attr, v) = (a', v')
              · injection hk with h1 h2
                subst h1
                subst h2
                exact ⟨j, hj, by simpa using he⟩
              · rw [cntPair_snoc_ne _ _ _ hk] at hcnt
                exact hf a' v' hcnt
            · intro a' v' hgood
              by_cases hk : (attr, v) = (a', v')
              · injection hk with h1 h2
                subst h1
                subst h2
                have hcnt0 : cntPair st.fetches (attr, v) = 0 := by
                  rcases Nat.eq_zero_or_pos (cntPair st.fetches (attr, v)) with h0 | h1
                  · exact h0
                  · have hsome := (hg attr v hgood).2 h1
                    rw [hh] at hsome
                    exact absurd hsome (by simp)
                constructor
                · rw [cntPair_snoc_self, hcnt0]
                · intro _
                  simp [cacheHit_set_self _ _ _ (dictUpdate_single_ne_nil "dn" [v] e0.2)]
              · rw [cntPair_snoc_ne _ _ _ hk, cacheHit_set_ne _ _ _ _ hk]
                exact hg a' v' hgood
    · exact ⟨hc, hf, hg⟩

/-- Characterization of the pair the inner join loop attaches for one value:
either the attribute is not joined and the sub-attributes are empty, or the
attached mapping is the pair's `cacheVal`. -/
theorem processValue_out (conn : LdapConn) (joins : List (String × Join))
    (attr : String) (st : JoinSt) (v : String) (hinv : JInv conn joins st)
    (v' : String) (sa : SubAttrs)
    (hout : (processValue conn joins attr st v).2 = some (v', sa)) :
    v' = v ∧ ((pyLookup joins attr = none ∧ sa = []) ∨
      cacheVal conn joins attr v = some sa) := by
  obtain ⟨hc, hf, hg⟩ := hinv
  rw [processValue] at hout
  rcases hj : pyLookup joins attr with _ | j <;> rw [hj] at hout <;> dsimp only at hout
  · injection hout with h
    injection h with h1 h2
    subst h1
    subst h2
    exact ⟨rfl, Or.inl ⟨rfl, rfl⟩⟩
  · rcases hh : cacheHit st.cache (attr, v) with _ | sa0 <;>
      rw [hh] at hout <;> dsimp only at hout
    · by_cases he : j.attributes.isEmpty
      · rw [if_pos he] at hout
        injection hout with h
        injection h with h1 h2
        subst h1
        subst h2
        refine ⟨rfl, Or.inr ?_⟩
        simp [cacheVal, hj, he]
      · rw [if_neg he] at hout
        rcases hq : _query_ldap conn v j.filter j.attributes j.scope with e | ⟨l, es⟩ <;>
          rw [hq] at hout
        · exact absurd hout (by simp)
        · cases es with
          | nil => exact absurd hout (by simp)
          | cons e0 rest =>
            dsimp only at hout
            injection hout with h
            injection h with h1 h2
            subst h1
            subst h2
            refine ⟨rfl, Or.inr ?_⟩
            simp [cacheVal, hj, he, hq]
    · injection hout with h
      injection h with h1 h2
      subst h1
      subst h2
      obtain ⟨hl, hne⟩ := cacheHit_eq_some st.cache (attr, v) sa0 hh
      exact ⟨rfl, Or.inr (hc attr v sa0 hl)⟩

/-- The state after the inner loop over one value does not depend on whether
the value was kept or dropped. -/
theorem processValues_fst (conn : LdapConn) (joins : List (String × Join))
    (attr : String) (st : JoinSt) (v : String) (vs : List String) :
    (processValues conn joins attr st (v :: vs)).1 =
      (processValues conn joins attr (processValue conn joins attr st v).1 vs).1 := by
  simp only [processValues]
  rcases h : (processValue conn joins attr st v).2 with _ | p <;> simp [h]

/-- The loop over the values of one attribute preserves the invariant. -/
theorem processValues_inv (conn : LdapConn) (joins : List (String × Join))
    (attr : String) (values : List String) :
    ∀ st, JInv conn joins st →
      JInv conn joins (processValues conn joins attr st values).1 := by
  induction values with
  | nil => exact fun st hinv => hinv
  | cons v vs ih =>
    intro st hinv
    rw [processValues_fst]
    exact ih _ (processValue_inv conn joins attr st v hinv)

/-- Characterization of every pair attached by the loop over the values of
one attribute. -/
theorem processValues_out (conn : LdapConn) (joins : List (String × Join))
    (attr : String) (values : List String) :
    ∀ st, JInv conn joins st →
      ∀ p ∈ (processValues conn joins attr st values).2,
        (pyLookup joins attr = none ∧ p.2 = []) ∨
          cacheVal conn joins attr p.1 = some p.2 := by
  induction values with
  | nil =>
    intro st _ p hp
    simp [processValues] at hp
  | cons v vs ih =>
    intro st hinv p hp
    have h1 := processValue_inv conn joins attr st v hinv
    simp only [processValues] at hp
    rcases hr : (processValue conn joins attr st v).2 with _ | q <;> rw [hr] at hp
    · exact ih _ h1 p hp
    · dsimp only at hp
      rcases List.mem_cons.mp hp with rfl | hp'
      · obtain ⟨hv, hchar⟩ :=
          processValue_out conn joins attr st v hinv p.1 p.2 (by rw [hr])
        rcases hchar with ⟨hn, he⟩ | hcv
        · exact Or.inl ⟨hn, he⟩
        · rw [hv]
          exact Or.inr hcv
      · exact ih _ h1 p hp'

/-- The attribute loop preserves the invariant. -/
theorem processAttrs_inv (conn : LdapConn) (joins : List (String × Join))
    (attrs : RawAttrs) :
    ∀ st, JInv conn joins st →
      JInv conn joins (processAttrs conn joins st attrs).1 := by
  induction attrs with
  | nil => exact fun st hinv => hinv
  | cons av rest ih =>
    intro st hinv
    obtain ⟨a, values⟩ := av
    simp only [processAttrs]
    exact ih _ (processValues_inv conn joins a values st hinv)

/-- Characterization of every attached pair after the attribute loop. -/
theorem processAttrs_out (conn : LdapConn) (joins : List (String × Join))
    (attrs : RawAttrs) :
    ∀ st, JInv conn joins st →
      ∀ ap ∈ (processAttrs conn joins st attrs).2, ∀ p ∈ ap.2,
        (pyLookup joins ap.1 = none ∧ p.2 = []) ∨
          cacheVal conn joins ap.1 p.1 = some p.2 := by
  induction attrs with
  | nil =>
    intro st _ ap hap
    simp [processAttrs] at hap
  | cons av rest ih =>
    intro st hinv ap hap
    obtain ⟨a, values⟩ := av
    simp only [processAttrs] at hap
    rcases List.mem_cons.mp hap with rfl | hap'
    · exact fun p hp => processValues_out conn joins a values st hinv p hp
    · exact ih _ (processValues_inv conn joins a values st hinv) ap hap'

/-- The entry loop preserves the invariant. -/
theorem processEntries_inv (conn : LdapConn) (joins : List (String × Join))
    (entries : List Entry) :
    ∀ st, JInv conn joins st →
      JInv conn joins (processEntries conn joins st entries).1 := by
  induction entries with
  | nil => exact fun st hinv => hinv
  | cons ent rest ih =>
    intro st hinv
    obtain ⟨dn, attrs⟩ := ent
    simp only [processEntries]
    exact ih _ (processAttrs_inv conn joins attrs st hinv)

/-- Characterization of every attached pair after the entry loop. -/
theorem processEntries_out (conn : LdapConn) (joins : List (String × Join))
    (entries : List Entry) :
    ∀ st, JInv conn joins st →
      ∀ ent ∈ (processEntries conn joins st entries).2, ∀ ap ∈ ent.2, ∀ p ∈ ap.2,
        (pyLookup joins ap.1 = none ∧ p.2 = []) ∨
          cacheVal conn joins ap.1 p.1 = some p.2 := by
  induction entries with
  | nil =>
    intro st _ ent hent
    simp [processEntries] at hent
  | cons e0 rest ih =>
    intro st hinv ent hent
    obtain ⟨dn, attrs⟩ := e0
    simp only [processEntries] at hent
    rcases List.mem_cons.mp hent with rfl | hent'
    · exact fun ap hap => processAttrs_out conn joins attrs st hinv ap hap
    · exact ih _ (processAttrs_inv conn joins attrs st hinv) ent hent'

/-- The invariant holds for the initial empty state. -/
theorem JInv_empty (conn : LdapConn) (joins : List (String × Join)) :
    JInv conn joins ⟨[], [], []⟩ := by
  refine ⟨?_, ?_, ?_⟩
  · intro a v sa h
    exact absurd h (by simp)
  · intro a v h
    exact absurd h (by simp [cntPair])
  · intro a v _
    exact ⟨by simp [cntPair], fun h => absurd h (by simp [cntPair])⟩

/-- The final join-resolution state of a successful `query_ldap` satisfies
the invariant, and its fetch trace and entries are the state's. -/
theorem query_ldap_final (conn : LdapConn) (base filter : String)
    (attributes : List String) (joins : List (String × Join)) (scope : Nat)
    (out : QOut) (hq : query_ldap conn base filter attributes joins scope = .ok out) :
    ∃ l entries,
      _query_ldap conn base filter attributes scope = .ok (l, entries) ∧
      out.entries = (processEntries conn joins ⟨[], [], []⟩ entries).2 ∧
      out.fetches = (processEntries conn joins ⟨[], [], []⟩ entries).1.fetches := by
  rw [query_ldap] at hq
  rcases h0 : _query_ldap conn base filter attributes scope with e | ⟨l, entries⟩ <;>
    rw [h0] at hq
  · exact absurd hq (by simp)
  · dsimp only at hq
    refine ⟨l, entries, rfl, ?_, ?_⟩
    · obtain rfl : (⟨(processEntries conn joins ⟨[], [], []⟩ entries).2,
          (processEntries conn joins ⟨[], [], []⟩ entries).1.fetches,
          (processEntries conn joins ⟨[], [], []⟩ entries).1.warns⟩ : QOut) = out := by
        injection hq
      rfl
    · obtain rfl : (⟨(processEntries conn joins ⟨[], [], []⟩ entries).2,
          (processEntries conn joins ⟨[], [], []⟩ entries).1.fetches,
          (processEntries conn joins ⟨[], [], []⟩ entries).1.warns⟩ : QOut) = out := by
        injection hq
      rfl

/-- C1 (amended): when the nested fetch for a joined `(attribute, value)`
pair succeeds — the join fetches no attributes, or the fetch returns at
least one entry — `query_ldap` issues at most one nested fetch for that pair
over the whole run, however many entries or positions share the value; pairs
whose fetch returns nothing or fails are never cached, so each further
occurrence fetches again. -/
theorem C1_join_cache_single_fetch (conn : LdapConn) (base filter : String)
    (attributes : List String) (joins : List (String × Join)) (scope : Nat)
    (a v : String) (out : QOut)
    (hgood : goodPair conn joins a v)
    (hq : query_ldap conn base filter attributes joins scope = .ok out) :
    cntPair out.fetches (a, v) ≤ 1 := by
  obtain ⟨l, entries, h0, hent, hfet⟩ :=
    query_ldap_final conn base filter attributes joins scope out hq
  have hfin := processEntries_inv conn joins entries ⟨[], [], []⟩ (JInv_empty conn joins)
  rw [hfet]
  exact (hfin.2.2 a v hgood).1

/-- Witness for C1 (amended): two occurrences of the same joined value whose
nested fetch returns one entry result in a single nested fetch. -/
theorem C1_witness :
    goodPair
      (LdapConn.mk fun base _ _ _ =>
        if base = "cn=top" then .ok [("cn=g", [("member", ["cn=a", "cn=a"])])]
        else .ok [("cn=a", [("cn", ["A"])])])
      [("member", ⟨"f2", ["cn"], 0⟩)] "member" "cn=a" ∧
    query_ldap
      (LdapConn.mk fun base _ _ _ =>
        if base = "cn=top" then .ok [("cn=g", [("member", ["cn=a", "cn=a"])])]
        else .ok [("cn=a", [("cn", ["A"])])])
      "cn=top" "f" ["member"] [("member", ⟨"f2", ["cn"], 0⟩)] 2 =
      .ok ⟨[("cn=g",
             [("member", [("cn=a", [("dn", ["cn=a"]), ("cn", ["A"])]),
                          ("cn=a", [("dn", ["cn=a"]), ("cn", ["A"])])]),
              ("dn", [("cn=g", [])])])],
           [("member", "cn=a")], []⟩ ∧
    cntPair [("member", "cn=a")] ("member", "cn=a") ≤ 1 := by
  refine ⟨⟨⟨"f2", ["cn"], 0⟩, rfl,
    Or.inr ⟨[LogEvent.gotEntries 1], ("cn=a", [("cn", ["A"]), ("dn", ["cn=a"])]), [],
      by decide⟩⟩, by decide, ?_⟩
  exact C1_join_cache_single_fetch
    (LdapConn.mk fun base _ _ _ =>
      if base = "cn=top" then .ok [("cn=g", [("member", ["cn=a", "cn=a"])])]
      else .ok [("cn=a", [("cn", ["A"])])])
    "cn=top" "f" ["member"] [("member", ⟨"f2", ["cn"], 0⟩)] 2 "member" "cn=a"
    ⟨[("cn=g",
       [("member", [("cn=a", [("dn", ["cn=a"]), ("cn", ["A"])]),
                    ("cn=a", [("dn", ["cn=a"]), ("cn", ["A"])])]),
        ("dn", [("cn=g", [])])])],
     [("member", "cn=a")], []⟩
    ⟨⟨"f2", ["cn"], 0⟩, rfl,
      Or.inr ⟨[LogEvent.gotEntries 1], ("cn=a", [("cn", ["A"]), ("dn", ["cn=a"])]), [],
        by decide⟩⟩
    (by decide)

/-- Counterexample to C1 as stated: when the nested fetch for a joined value
returns no entries, nothing is cached, so two occurrences of the same
`(attribute, value)` pair trigger two nested fetches — more than one. -/
theorem C1_counterexample :
    query_ldap
      (LdapConn.mk fun base _ _ _ =>
        if base = "cn=top" then .ok [("cn=g", [("member", ["cn=a", "cn=a"])])]
        else .ok [])
      "cn=top" "f" ["member"] [("member", ⟨"f2", ["cn"], 0⟩)] 2 =
      .ok ⟨[("cn=g", [("member", []), ("dn", [("cn=g", [])])])],
           [("member", "cn=a"), ("member", "cn=a")], []⟩ ∧
    cntPair [("member", "cn=a"), ("member", "cn=a")] ("member", "cn=a") = 2 ∧
    ¬ cntPair [("member", "cn=a"), ("member", "cn=a")] ("member", "cn=a") ≤ 1 := by
  exact ⟨by decide, by decide, by decide⟩

/-- C8 (amended): for a joined attribute whose join has no configured
attributes to fetch, `query_ldap` performs no nested fetch at all, and
attaches to every value the singleton sub-attribute mapping
`{dn: [value]}` — not an empty mapping. -/
theorem C8_no_attributes_short_circuit (conn : LdapConn) (base filter : String)
    (attributes : List String) (joins : List (String × Join)) (scope : Nat)
    (a : String) (j : Join) (out : QOut)
    (hj : pyLookup joins a = some j) (he : j.attributes = [])
    (hq : query_ldap conn base filter attributes joins scope = .ok out) :
    (∀ v, cntPair out.fetches (a, v) = 0) ∧
    (∀ ent ∈ out.entries, ∀ ap ∈ ent.2, ap.1 = a →
      ∀ p ∈ ap.2, p.2 = [("dn", [p.1])]) := by
  obtain ⟨l, entries, h0, hent, hfet⟩ :=
    query_ldap_final conn base filter attributes joins scope out hq
  have hfin := processEntries_inv conn joins entries ⟨[], [], []⟩ (JInv_empty conn joins)
  constructor
  · intro v
    rw [hfet]
    rcases Nat.eq_zero_or_pos
        (cntPair (processEntries conn joins ⟨[], [], []⟩ entries).1.fetches (a, v)) with
      h0' | h1
    · exact h0'
    · obtain ⟨j', hj', hne⟩ := hfin.2.1 a v h1
      rw [hj] at hj'
      obtain rfl : j = j' := by injection hj'
      exact absurd he hne
  · intro ent hent' ap hap ha p hp
    rw [hent] at hent'
    have hchar := processEntries_out conn joins entries ⟨[], [], []⟩
      (JInv_empty conn joins) ent hent' ap hap p hp
    rcases hchar with ⟨hn, -⟩ | hcv
    · rw [ha, hj] at hn
      exact absurd hn (by simp)
    · rw [ha] at hcv
      rw [cacheVal, hj] at hcv
      dsimp only at hcv
      rw [if_pos (by simp [he])] at hcv
      have hsa : [("dn", [p.1])] = p.2 := by injection hcv
      exact hsa.symm

/-- Witness for C8 (amended) at a concrete join with no attributes: no
nested fetch happens, and the attached mapping is `{dn: [cn=x]}`. -/
theorem C8_witness :
    query_ldap (LdapConn.mk fun _ _ _ _ => .ok [("cn=g", [("member", ["cn=x"])])])
        "cn=top" "f" ["member"] [("member", ⟨"f2", [], 0⟩)] 2 =
      .ok ⟨[("cn=g", [("member", [("cn=x", [("dn", ["cn=x"])])]),
                      ("dn", [("cn=g", [])])])], [], []⟩ ∧
    (∀ v, cntPair (([] : List (String × String))) ("member", v) = 0) ∧
    [("dn", ["cn=x"])] = [("dn", ["cn=x"])] := by
  refine ⟨by decide, ?_, rfl⟩
  exact (C8_no_attributes_short_circuit
    (LdapConn.mk fun _ _ _ _ => .ok [("cn=g", [("member", ["cn=x"])])])
    "cn=top" "f" ["member"] [("member", ⟨"f2", [], 0⟩)] 2 "member" ⟨"f2", [], 0⟩
    ⟨[("cn=g", [("member", [("cn=x", [("dn", ["cn=x"])])]),
                ("dn", [("cn=g", [])])])], [], []⟩
    rfl rfl (by decide)).1

/-- Counterexample to C8 as stated: the sub-attribute mapping attached for a
join with no configured attributes is `{dn: [value]}`, which is not empty. -/
theorem C8_counterexample :
    query_ldap (LdapConn.mk fun _ _ _ _ => .ok [("cn=g", [("member", ["cn=x"])])])
        "cn=top" "f" ["member"] [("member", ⟨"f2", [], 0⟩)] 2 =
      .ok ⟨[("cn=g", [("member", [("cn=x", [("dn", ["cn=x"])])]),
                      ("dn", [("cn=g", [])])])], [], []⟩ ∧
    ([("dn", ["cn=x"])] : SubAttrs) ≠ [] := by
  exact ⟨by decide, by decide⟩

/-! ## The implicit `dn` attribute (C9) -/

/-- Lookup of `dn` after lowering attribute names: if some pair's key lowers
to `dn` and every such pair carries the value `w`, the lowered list maps
`dn` to `w`. -/
theorem pyLookup_lowered (m : List (String × List String)) (w : List String)
    (hex : ∃ p ∈ m, strLower p.1 = "dn")
    (hall : ∀ p ∈ m, strLower p.1 = "dn" → p.2 = w) :
    pyLookup (m.map (fun p => (strLower p.1, p.2))) "dn" = some w := by
  induction m with
  | nil => simp at hex
  | cons q rest ih =>
    by_cases hq : strLower q.1 = "dn"
    · have hq2 := hall q (List.mem_cons_self _ _) hq
      simp [pyLookup, hq, hq2]
    · rcases hex with ⟨p, hp, hpl⟩
      rcases List.mem_cons.mp hp with rfl | hp'
      · exact absurd hpl hq
      · rw [List.map_cons, pyLookup_cons, if_neg hq]
        exact ih ⟨p, hp', hpl⟩ (fun p' hp'' h => hall p' (List.mem_cons_of_mem _ hp'') h)

/-- Looking a key up in a Python-built dict is looking it up from the back
of the source list (last value for the key wins). -/
theorem pyLookup_pyDictOfList {α β : Type} [DecidableEq α]
    (l : List (α × β)) (k : α) :
    pyLookup (pyDictOfList l) k = pyLookup l.reverse k := by
  have main : ∀ d, pyLookup (l.foldl (fun d p => pyDictSet d p.1 p.2) d) k =
      match pyLookup l.reverse k with
      | some v => some v
      | none => pyLookup d k := by
    induction l with
    | nil =>
      intro d
      simp
    | cons q t ih =>
      intro d
      rw [List.foldl_cons, ih (pyDictSet d q.1 q.2), List.reverse_cons, pyLookup_append]
      cases h : pyLookup t.reverse k with
      | some v => rfl
      | none =>
        by_cases hk : q.1 = k
        · subst hk
          rw [pyLookup_pyDictSet_self]
          simp [pyLookup]
        · rw [pyLookup_pyDictSet_ne _ _ _ _ hk]
          simp [pyLookup, hk]
  rw [pyDictOfList, main []]
  cases h : pyLookup l.reverse k <;> simp

/-- After `attributes['dn'] = [dn]` and attribute-name lowering, `dn` maps
to the entry's own DN, provided the raw attribute names are unique and no
other raw name lowercases to `dn`. -/
theorem lowered_dn (dn : String) (attrs : RawAttrs)
    (hnd : (attrs.map Prod.fst).Nodup)
    (hcol : ∀ p ∈ attrs, strLower p.1 = "dn" → p.1 = "dn") :
    pyLookup (lower_attributes (dn, pyDictSet attrs "dn" [dn])).2 "dn" = some [dn] := by
  show pyLookup
    (pyDictOfList ((pyDictSet attrs "dn" [dn]).map (fun p => (strLower p.1, p.2)))) "dn"
    = some [dn]
  rw [pyLookup_pyDictOfList, ← List.map_reverse]
  apply pyLookup_lowered
  · refine ⟨("dn", [dn]), ?_, (by decide : strLower "dn" = "dn")⟩
    rw [List.mem_reverse]
    exact pyDictSet_mem_self attrs "dn" [dn]
  · intro p hp hpl
    rw [List.mem_reverse] at hp
    rcases mem_pyDictSet attrs "dn" [dn] p hnd hp with rfl | ⟨hpin, hpne⟩
    · rfl
    · exact absurd (hcol p hpin hpl) hpne

/-- Every entry returned by the fetcher of a well-formed transport carries
its own DN under the `dn` attribute. -/
theorem fetch_entries_dn (conn : LdapConn) (hclean : CleanConn conn)
    (b f : String) (as : List String) (s : Nat) (l : List LogEvent) (es : List Entry)
    (h : _query_ldap conn b f as s = .ok (l, es)) :
    ∀ p ∈ es, pyLookup p.2 "dn" = some [p.1] := by
  rw [_query_ldap] at h
  rcases h0 : conn.search_s b s f as with e | raw <;> rw [h0] at h
  · exact absurd h (by simp)
  · dsimp only at h
    have hes : (buildEntries raw).2 = es := by
      injection h with h'
      injection h' with h1 h2
    intro p hp
    rw [← hes, buildEntries_eq] at hp
    obtain ⟨q, hq, rfl⟩ := List.mem_map.mp hp
    have hqraw : q ∈ raw := (List.mem_filter.mp hq).1
    have hq2 := hclean b s f as raw h0 q hqraw
    exact lowered_dn q.1 q.2 hq2.1 hq2.2

/-- C9: for a well-formed transport, every entry returned by the fetcher
carries a `dn` attribute whose single value is the entry's own DN (set
before decoding and attribute-name lowering), and the sub-attribute mapping
attached to every resolved join value carries a `dn` attribute whose single
value is the fetched sub-entry's own DN (or the joined value itself when the
join fetches no attributes). -/
theorem C9_dn_attribute (conn : LdapConn) (hclean : CleanConn conn) :
    (∀ b f as s l es, _query_ldap conn b f as s = .ok (l, es) →
      ∀ p ∈ es, pyLookup p.2 "dn" = some [p.1]) ∧
    (∀ b f as joins s out, query_ldap conn b f as joins s = .ok out →
      ∀ ent ∈ out.entries, ∀ ap ∈ ent.2, ∀ j, pyLookup joins ap.1 = some j →
        ∀ p ∈ ap.2,
          (j.attributes = [] → pyLookup p.2 "dn" = some [p.1]) ∧
          (j.attributes ≠ [] →
            ∃ l2 d as2 rest,
              _query_ldap conn p.1 j.filter j.attributes j.scope
                = .ok (l2, (d, as2) :: rest) ∧
              pyLookup p.2 "dn" = some [d])) := by
  refine ⟨fetch_entries_dn conn hclean, ?_⟩
  intro b f as joins s out hq ent hent ap hap j hj p hp
  obtain ⟨l, entries, h0, hent_eq, hfet⟩ := query_ldap_final conn b f as joins s out hq
  have hchar := processEntries_out conn joins entries ⟨[], [], []⟩
    (JInv_empty conn joins) ent (by rw [← hent_eq]; exact hent) ap hap p hp
  rcases hchar with ⟨hn, -⟩ | hcv
  · rw [hj] at hn
    exact absurd hn (by simp)
  · constructor
    · intro hea
      rw [cacheVal, hj] at hcv
      dsimp only at hcv
      rw [if_pos (by simp [hea])] at hcv
      have hsa : [("dn", [p.1])] = p.2 := by injection hcv
      rw [← hsa]
      simp [pyLookup]
    · intro hne
      rw [cacheVal, hj] at hcv
      dsimp only at hcv
      rw [if_neg (by simpa using hne)] at hcv
      rcases hq2 : _query_ldap conn p.1 j.filter j.attributes j.scope with e | ⟨l2, es2⟩ <;>
        rw [hq2] at hcv
      · exact absurd hcv (by simp)
      · cases es2 with
        | nil => exact absurd hcv (by simp)
        | cons e0 rest =>
          dsimp only at hcv
          have hsa : dictUpdate [("dn", [p.1])] e0.2 = p.2 := by injection hcv
          refine ⟨l2, e0.1, e0.2, rest, rfl, ?_⟩
          rw [← hsa, pyLookup_dictUpdate_single]
          have hdn := fetch_entries_dn conn hclean p.1 j.filter j.attributes j.scope
            l2 (e0 :: rest) hq2 e0 (by simp)
          rw [hdn]
          rfl

/-- Witness for C9 at a concrete well-formed connection. -/
theorem C9_witness :
    CleanConn (LdapConn.mk fun _ _ _ _ => .ok [("cn=a", [("cn", ["a"])])]) ∧
    _query_ldap (LdapConn.mk fun _ _ _ _ => .ok [("cn=a", [("cn", ["a"])])])
        "b" "f" ["cn"] 2 =
      .ok ([LogEvent.gotEntries 1], [("cn=a", [("cn", ["a"]), ("dn", ["cn=a"])])]) ∧
    pyLookup [("cn", ["a"]), ("dn", ["cn=a"])] "dn" = some ["cn=a"] := by
  have hclean : CleanConn (LdapConn.mk fun _ _ _ _ => .ok [("cn=a", [("cn", ["a"])])]) := by
    intro b s f a raw h p hp
    obtain rfl : [("cn=a", [("cn", ["a"])])] = raw := by injection h
    rcases List.mem_singleton.mp hp with rfl
    exact ⟨by decide, by decide⟩
  refine ⟨hclean, by decide, ?_⟩
  exact (C9_dn_attribute _ hclean).1 "b" "f" ["cn"] 2
    [LogEvent.gotEntries 1] [("cn=a", [("cn", ["a"]), ("dn", ["cn=a"])])] (by decide)
    ("cn=a", [("cn", ["a"]), ("dn", ["cn=a"])]) (by decide)

end Ldap2pg
